import Mathlib

/-!
# A software 3D rendering pipeline (`script.js`)

Shallow embedding of the vector maths, face geometry, camera, transform,
projection, visibility and depth-buffered rasterisation code of `script.js`.

Modelling conventions

* JavaScript numbers are modelled by an ordered field `K` (exact arithmetic);
  the definitions are generic in `K`, so they run on `ℚ`, and the theorems that
  need `Math.sqrt`, `Math.sin` or `Math.cos` instantiate `K` with `ℝ`.
  `Math.sqrt`, `Math.sin` and `Math.cos` are passed as function arguments.
* Pixel coordinates and loop counters are integers, array indices are naturals.
* A read of an array slot that does not exist gives `undefined` in JavaScript;
  a property access on it throws a `TypeError`.  Such a throw is the value
  `none` of an `Option` result.
* Colours are the strings assigned to `fillStyle`; the canvas is a map from
  integer pixel coordinates to the colour last painted there.
-/

/-! ## Point3D -/

/-- Class `Point3D`: three numeric fields. -/
structure Point3D (K : Type) where
  x : K
  y : K
  z : K

namespace Point3D

variable {K : Type} [LinearOrderedField K]

/-- Method `subtract(other)`. -/
def subtract (a other : Point3D K) : Point3D K :=
  ⟨a.x - other.x, a.y - other.y, a.z - other.z⟩

/-- Method `cross(other)`. -/
def cross (a other : Point3D K) : Point3D K :=
  ⟨a.y * other.z - a.z * other.y,
   a.z * other.x - a.x * other.z,
   a.x * other.y - a.y * other.x⟩

/-- Method `dot(other)`. -/
def dot (a other : Point3D K) : K :=
  a.x * other.x + a.y * other.y + a.z * other.z

/-- Method `length()`; `sqrt` stands for `Math.sqrt`. -/
def length (sqrt : K → K) (a : Point3D K) : K :=
  sqrt (a.x * a.x + a.y * a.y + a.z * a.z)

/-- Method `normalize()`: `len > 0 ? new Point3D(x/len, y/len, z/len) : this`. -/
def normalize (sqrt : K → K) (a : Point3D K) : Point3D K :=
  let len := a.length sqrt
  if len > 0 then ⟨a.x / len, a.y / len, a.z / len⟩ else a

end Point3D

/-! ## Face and Model3D -/

/-- Class `Face`: the vertex indices, the colour, and the two cached fields
`normal` and `center` that `calculateNormal` overwrites. -/
structure Face (K : Type) where
  vertexIndices : List Nat
  color : String
  normal : Point3D K
  center : Point3D K

namespace Face

variable {K : Type} [LinearOrderedField K]

/-- The constructor of `Face`.  The colour is the one passed in or, for a
missing one, the random `hsl(...)` string drawn by the constructor; both are
the argument `color` here. -/
def new (vertexIndices : List Nat) (color : String) : Face K :=
  { vertexIndices := vertexIndices, color := color,
    normal := ⟨0, 0, 0⟩, center := ⟨0, 0, 0⟩ }

/-- The loop `for (const idx of this.vertexIndices) { sumX += vertices[idx].x; ... }`
started from the sums `acc`; `none` when some `vertices[idx]` is undefined. -/
def sumVertices (vertices : List (Point3D K)) :
    List Nat → K × K × K → Option (K × K × K)
  | [], acc => some acc
  | idx :: rest, acc =>
    match vertices[idx]? with
    | none => none
    | some v => sumVertices vertices rest (acc.1 + v.x, acc.2.1 + v.y, acc.2.2 + v.z)

/-- Method `calculateNormal(vertices)`: the returned normal together with the
face after the assignments to `this.normal` and `this.center`. -/
def calculateNormal (sqrt : K → K) (f : Face K) (vertices : List (Point3D K)) :
    Option (Point3D K × Face K) :=
  if f.vertexIndices.length < 3 then some (⟨0, 0, 1⟩, f)
  else
    match f.vertexIndices with
    | i0 :: i1 :: i2 :: _ =>
      match vertices[i0]?, vertices[i1]?, vertices[i2]? with
      | some v0, some v1, some v2 =>
        let vec1 := v1.subtract v0
        let vec2 := v2.subtract v0
        let normal := (vec1.cross vec2).normalize sqrt
        match sumVertices vertices f.vertexIndices (0, 0, 0) with
        | none => none
        | some (sumX, sumY, sumZ) =>
          let n : K := (f.vertexIndices.length : K)
          some (normal,
            { f with normal := normal, center := ⟨sumX / n, sumY / n, sumZ / n⟩ })
      | _, _, _ => none
    | _ => none

end Face

/-- Class `Model3D`. -/
structure Model3D (K : Type) where
  vertices : List (Point3D K)
  faces : List (Face K)
  position : Point3D K

/-- The constructor of `Model3D`: `faces.map(f => new Face(f))`; `hsl i` is the
random colour drawn for the face number `i`. -/
def Model3D.new {K : Type} [LinearOrderedField K] (vertices : List (Point3D K))
    (faces : List (List Nat)) (position : Point3D K) (hsl : Nat → String) : Model3D K :=
  { vertices := vertices,
    faces := faces.enum.map (fun p => Face.new p.2 (hsl p.1)),
    position := position }

/-! ## The built-in cube of `createModels` -/

section Models

variable {K : Type} [LinearOrderedField K]

/-- The list `cubeVertices`. -/
def cubeVertices : List (Point3D K) :=
  [⟨-1, -1, -1⟩, ⟨1, -1, -1⟩, ⟨1, 1, -1⟩, ⟨-1, 1, -1⟩,
   ⟨-1, -1, 1⟩, ⟨1, -1, 1⟩, ⟨1, 1, 1⟩, ⟨-1, 1, 1⟩]

/-- The list `cubeFaces`. -/
def cubeFaces : List (List Nat) :=
  [[0, 3, 2, 1], [4, 5, 6, 7], [0, 1, 5, 4], [2, 3, 7, 6], [0, 4, 7, 3], [1, 2, 6, 5]]

/-- The model `cube: new Model3D(cubeVertices, cubeFaces)`, at position `(0,0,0)`. -/
def cubeModel (hsl : Nat → String) : Model3D K :=
  Model3D.new cubeVertices cubeFaces ⟨0, 0, 0⟩ hsl

/-- The list `tetraVertices`. -/
def tetraVertices : List (Point3D K) :=
  [⟨0, 1, 0⟩, ⟨0.87, -0.5, 0⟩, ⟨-0.87, -0.5, 0⟩, ⟨0, 0, 1.41⟩]

/-- The list `tetraFaces`. -/
def tetraFaces : List (List Nat) :=
  [[0, 2, 1], [0, 1, 3], [0, 3, 2], [1, 2, 3]]

/-- The list `pyramidVertices`. -/
def pyramidVertices : List (Point3D K) :=
  [⟨0, 1, 0⟩, ⟨-1, -1, -1⟩, ⟨1, -1, -1⟩, ⟨1, -1, 1⟩, ⟨-1, -1, 1⟩]

/-- The list `pyramidFaces`. -/
def pyramidFaces : List (List Nat) :=
  [[0, 1, 2], [0, 2, 3], [0, 3, 4], [0, 4, 1], [1, 4, 3, 2]]

end Models

/-! ## Simple3DViewer -/

/-- The object `this.rotation`. -/
structure Rotation (K : Type) where
  x : K
  y : K
  z : K

/-- The object `this.camera`. -/
structure Camera (K : Type) where
  distance : K
  height : K
  angle : K

/-- The object literal `{x, y, z}` returned by `projectPoint`. -/
structure ProjectedPoint (K : Type) where
  x : K
  y : K
  z : K

/-- The state of a `Simple3DViewer` that the pipeline reads and writes: the
canvas size and contents, the mode flags, the rotation, the camera and the
depth buffer.  The depth buffer holds numbers: the constructor allocates it
and `render` fills it by `clearZBuffer` before `drawTriangle` reads it. -/
@[ext] structure Viewer (K : Type) where
  width : Nat
  height : Nat
  pixels : Int → Int → String
  isPerspective : Bool
  backfaceCulling : Bool
  wireframe : Bool
  useZBuffer : Bool
  rotation : Rotation K
  camera : Camera K
  zBuffer : List K

/-- The path operations of the 2D context used by the flat and wireframe
branch of `drawFace`: `stroke style lineWidth path` and `fill style path` give
the canvas contents after stroking or filling the closed path. -/
structure CanvasPaths (K : Type) where
  stroke : String → K → List (K × K) → (Int → Int → String) → (Int → Int → String)
  fill : String → List (K × K) → (Int → Int → String) → (Int → Int → String)

section Viewer

variable {K : Type} [LinearOrderedField K]

/-- The constant `Number.MAX_VALUE`, the largest double: `2^1024 - 2^971`. -/
def MAX_VALUE : K := 2 ^ 1024 - 2 ^ 971

/-- The settings made by the constructor of `Simple3DViewer`, on a canvas of
the given size and contents and with the given depth buffer. -/
def Viewer.default (width height : Nat) (pixels : Int → Int → String)
    (zBuffer : List K) : Viewer K :=
  { width := width, height := height, pixels := pixels,
    isPerspective := false, backfaceCulling := true, wireframe := false,
    useZBuffer := true, rotation := ⟨0, 0, 0⟩, camera := ⟨5, 0, 0⟩,
    zBuffer := zBuffer }

/-- Method `getCameraPosition()`. -/
def getCameraPosition (sin cos : K → K) (v : Viewer K) : Point3D K :=
  ⟨sin v.camera.angle * v.camera.distance,
   v.camera.height,
   cos v.camera.angle * v.camera.distance⟩

/-- Method `rotatePoint(point, rx, ry, rz)`. -/
def rotatePoint (sin cos : K → K) (point : Point3D K) (rx ry rz : K) : Point3D K :=
  let x := point.x
  let y := point.y
  let z := point.z
  let yz : K × K :=
    if rx ≠ 0 then (y * cos rx - z * sin rx, y * sin rx + z * cos rx) else (y, z)
  let y := yz.1
  let z := yz.2
  let xz : K × K :=
    if ry ≠ 0 then (x * cos ry + z * sin ry, -x * sin ry + z * cos ry) else (x, z)
  let x := xz.1
  let z := xz.2
  let xy : K × K :=
    if rz ≠ 0 then (x * cos rz - y * sin rz, x * sin rz + y * cos rz) else (x, y)
  let x := xy.1
  let y := xy.2
  ⟨x, y, z⟩

/-- Method `projectPoint(point)`. -/
def projectPoint (sin cos : K → K) (v : Viewer K) (point : Point3D K) : ProjectedPoint K :=
  let camPos := getCameraPosition sin cos v
  let dx := point.x - camPos.x
  let dy := point.y - camPos.y
  let dz := point.z - camPos.z
  if v.isPerspective then
    let fov : K := 500
    let scale := fov / max dz 0.1
    ⟨dx * scale + (v.width : K) / 2, -dy * scale + (v.height : K) / 2, dz⟩
  else
    let scale : K := 80
    ⟨dx * scale + (v.width : K) / 2, -dy * scale + (v.height : K) / 2, dz⟩

/-- Method `isFaceVisible(face, transformedVertices)`: the returned boolean and
the face after `calculateNormal` has written its cached fields. -/
def isFaceVisible (sqrt sin cos : K → K) (v : Viewer K) (face : Face K)
    (transformedVertices : List (Point3D K)) : Option (Bool × Face K) :=
  if !v.backfaceCulling then some (true, face)
  else
    match face.calculateNormal sqrt transformedVertices with
    | none => none
    | some (normal, face1) =>
      let cameraPos := getCameraPosition sin cos v
      let viewVector : Point3D K :=
        (Point3D.mk (cameraPos.x - face1.center.x) (cameraPos.y - face1.center.y)
          (cameraPos.z - face1.center.z)).normalize sqrt
      some (decide (normal.dot viewVector > 0), face1)

/-- Method `clearZBuffer()`. -/
def clearZBuffer (v : Viewer K) : Viewer K :=
  { v with zBuffer := List.replicate v.zBuffer.length MAX_VALUE }

/-- The integers `lo, lo+1, ..., hi` visited by `for (let i = lo; i <= hi; i++)`. -/
def loopRange (lo hi : Int) : List Int :=
  (List.range (hi + 1 - lo).toNat).map (fun (i : Nat) => lo + (i : Int))

/-- The call `ctx.fillRect(x, y, 1, 1)` with `fillStyle = color` at integer
coordinates: it paints the pixel `(x, y)` when that lies on the canvas. -/
def fillPixel (v : Viewer K) (x y : Int) (color : String) : Int → Int → String :=
  fun px py =>
    if px = x ∧ py = y ∧ 0 ≤ x ∧ x < v.width ∧ 0 ≤ y ∧ y < v.height then color
    else v.pixels px py

variable [FloorRing K]

/-- The body of the two nested loops of `drawTriangle` at the pixel `(x, y)`. -/
def drawTrianglePixel (x1 y1 z1 x2 y2 z2 x3 y3 z3 : K) (color : String)
    (v : Viewer K) (x y : Int) : Viewer K :=
  let denom := (y2 - y3) * (x1 - x3) + (x3 - x2) * (y1 - y3)
  if |denom| < 0.0001 then v
  else
    let lambda1 := ((y2 - y3) * ((x : K) - x3) + (x3 - x2) * ((y : K) - y3)) / denom
    let lambda2 := ((y3 - y1) * ((x : K) - x3) + (x1 - x3) * ((y : K) - y3)) / denom
    let lambda3 := 1 - lambda1 - lambda2
    if lambda1 ≥ 0 ∧ lambda2 ≥ 0 ∧ lambda3 ≥ 0 then
      let z := lambda1 * z1 + lambda2 * z2 + lambda3 * z3
      let bufferIndex : Int := y * (v.width : Int) + x
      match v.zBuffer[bufferIndex.toNat]? with
      | none => v
      | some stored =>
        if z < stored ∧ z > 0 then
          { v with zBuffer := v.zBuffer.set bufferIndex.toNat z,
                   pixels := fillPixel v x y color }
        else v
    else v

/-- Method `drawTriangle(x1, y1, z1, x2, y2, z2, x3, y3, z3, color)`. -/
def drawTriangle (v : Viewer K) (x1 y1 z1 x2 y2 z2 x3 y3 z3 : K) (color : String) :
    Viewer K :=
  let minX : Int := max 0 ⌊min (min x1 x2) x3⌋
  let maxX : Int := min ((v.width : Int) - 1) ⌈max (max x1 x2) x3⌉
  let minY : Int := max 0 ⌊min (min y1 y2) y3⌋
  let maxY : Int := min ((v.height : Int) - 1) ⌈max (max y1 y2) y3⌉
  (loopRange minY maxY).foldl
    (fun v y => (loopRange minX maxX).foldl
      (fun v x => drawTrianglePixel x1 y1 z1 x2 y2 z2 x3 y3 z3 color v x y) v) v

/-- Method `drawFace(face, projectedPoints, faceColor)`. -/
def drawFace (api : CanvasPaths K) (v : Viewer K) (_face : Face K)
    (projectedPoints : List (ProjectedPoint K)) (faceColor : String) : Viewer K :=
  if projectedPoints.length < 3 then v
  else if v.useZBuffer && !v.wireframe then
    match projectedPoints with
    | [p0, p1, p2] =>
      drawTriangle v p0.x p0.y p0.z p1.x p1.y p1.z p2.x p2.y p2.z faceColor
    | [p0, p1, p2, p3] =>
      drawTriangle
        (drawTriangle v p0.x p0.y p0.z p1.x p1.y p1.z p2.x p2.y p2.z faceColor)
        p0.x p0.y p0.z p2.x p2.y p2.z p3.x p3.y p3.z faceColor
    | _ => v
  else
    let path := projectedPoints.map (fun p => (p.x, p.y))
    if v.wireframe then
      { v with pixels := api.stroke "#ffffff" 2 path v.pixels }
    else
      let filled := api.fill faceColor path v.pixels
      { v with pixels := api.stroke "#000000" 1 path filled }

/-- The test `points.some(p => p.z <= 0.1)` of `render`, evaluated left to
right: `none` when it reaches an undefined point before a point with
`z <= 0.1`. -/
def someNear : List (Option (ProjectedPoint K)) → Option Bool
  | [] => some false
  | none :: _ => none
  | some p :: rest => if p.z ≤ 0.1 then some true else someNear rest

/-- The vertex transformation of `render`: rotate, then add the model position. -/
def transformVertices (sin cos : K → K) (v : Viewer K) (model : Model3D K) :
    List (Point3D K) :=
  model.vertices.map (fun p =>
    let rotated := rotatePoint sin cos p v.rotation.x v.rotation.y v.rotation.z
    ⟨rotated.x + model.position.x, rotated.y + model.position.y,
     rotated.z + model.position.z⟩)

/-- The body of `model.faces.forEach(face => ...)` in `render`: the viewer
after the body and the face after `isFaceVisible`. -/
def renderFace (api : CanvasPaths K) (sqrt sin cos : K → K) (v : Viewer K)
    (transformedVertices : List (Point3D K))
    (projectedVertices : List (ProjectedPoint K)) (face : Face K) :
    Option (Viewer K × Face K) :=
  match isFaceVisible sqrt sin cos v face transformedVertices with
  | none => none
  | some (false, face1) => some (v, face1)
  | some (true, face1) =>
    let points := face1.vertexIndices.map (fun idx => projectedVertices[idx]?)
    match someNear points with
    | none => none
    | some true => some (v, face1)
    | some false => some (drawFace api v face1 points.reduceOption face1.color, face1)

/-- The loop over the faces of one model, from the viewer `v`; `visited` collects
the faces already visited. -/
def renderFaces (api : CanvasPaths K) (sqrt sin cos : K → K)
    (transformedVertices : List (Point3D K))
    (projectedVertices : List (ProjectedPoint K)) :
    List (Face K) → Viewer K → List (Face K) → Option (Viewer K × List (Face K))
  | [], v, visited => some (v, visited.reverse)
  | face :: rest, v, visited =>
    match renderFace api sqrt sin cos v transformedVertices projectedVertices face with
    | none => none
    | some (v1, face1) =>
      renderFaces api sqrt sin cos transformedVertices projectedVertices rest v1
        (face1 :: visited)

/-- The body of `modelsToRender.forEach(model => ...)` in `render`. -/
def renderModel (api : CanvasPaths K) (sqrt sin cos : K → K) (v : Viewer K)
    (model : Model3D K) : Option (Viewer K × Model3D K) :=
  let transformedVertices := transformVertices sin cos v model
  let projectedVertices := transformedVertices.map (fun p => projectPoint sin cos v p)
  match renderFaces api sqrt sin cos transformedVertices projectedVertices
      model.faces v [] with
  | none => none
  | some (v1, faces1) => some (v1, { model with faces := faces1 })

/-- The loop over the models to render. -/
def renderModels (api : CanvasPaths K) (sqrt sin cos : K → K) :
    List (Model3D K) → Viewer K → List (Model3D K) →
      Option (Viewer K × List (Model3D K))
  | [], v, visited => some (v, visited.reverse)
  | model :: rest, v, visited =>
    match renderModel api sqrt sin cos v model with
    | none => none
    | some (v1, model1) => renderModels api sqrt sin cos rest v1 (model1 :: visited)

/-- One frame of `render()` on the models selected by `currentModel`: clear the
canvas, clear the depth buffer when it is in use, draw the models.  The frame
counter, the page counters and the request for the next frame are left out. -/
def render (api : CanvasPaths K) (sqrt sin cos : K → K) (v : Viewer K)
    (modelsToRender : List (Model3D K)) : Option (Viewer K × List (Model3D K)) :=
  let v1 : Viewer K :=
    { v with pixels := fun px py =>
        if 0 ≤ px ∧ px < v.width ∧ 0 ≤ py ∧ py < v.height then "#1a1a2e"
        else v.pixels px py }
  let v2 := if v1.useZBuffer then clearZBuffer v1 else v1
  renderModels api sqrt sin cos modelsToRender v2 []

end Viewer

/-! ## The guards of the face loop of `render`

The two tests a face has to pass in the face loop of `render` before
`drawFace` is called for it, and the inputs used in the examples. -/

section FaceLoopGuards

variable {K : Type} [LinearOrderedField K]

/-- The face passes the test `isFaceVisible(face, transformedVertices)`. -/
def passesVisibility (sqrt sin cos : K → K) (v : Viewer K)
    (transformedVertices : List (Point3D K)) (face : Face K) : Bool :=
  match isFaceVisible sqrt sin cos v face transformedVertices with
  | some (true, _) => true
  | _ => false

/-- The face passes `isFaceVisible` and the near-plane test, so that the face
loop of `render` calls `drawFace` for it. -/
def reachesDrawFace (sqrt sin cos : K → K) (v : Viewer K)
    (transformedVertices : List (Point3D K))
    (projectedVertices : List (ProjectedPoint K)) (face : Face K) : Bool :=
  match isFaceVisible sqrt sin cos v face transformedVertices with
  | some (true, face1) =>
    match someNear (face1.vertexIndices.map (fun idx => projectedVertices[idx]?)) with
    | some false => true
    | _ => false
  | _ => false

/-- A viewer as the constructor leaves it, on a canvas of 4 by 3 pixels. -/
def sampleViewer : Viewer K :=
  Viewer.default 4 3 (fun _ _ => "#1a1a2e") (List.replicate 12 MAX_VALUE)

/-- A choice of face colours. -/
def sampleHsl : Nat → String := fun _ => "hsl(200, 70%, 60%)"

/-- Path operations that leave the canvas as it is. -/
def samplePaths : CanvasPaths K :=
  { stroke := fun _ _ _ pixels => pixels, fill := fun _ _ pixels => pixels }

end FaceLoopGuards

/-! ## Reference definitions for the rotation

The standard right-handed rotation matrices about the three axes, used to
state what `rotatePoint` computes. -/

section RotationMatrices

variable {K : Type} [LinearOrderedField K]

/-- The standard right-handed rotation about the X axis by the angle `a`. -/
def rotationX (sin cos : K → K) (a : K) : Matrix (Fin 3) (Fin 3) K :=
  !![1, 0, 0; 0, cos a, -sin a; 0, sin a, cos a]

/-- The standard right-handed rotation about the Y axis by the angle `a`. -/
def rotationY (sin cos : K → K) (a : K) : Matrix (Fin 3) (Fin 3) K :=
  !![cos a, 0, sin a; 0, 1, 0; -sin a, 0, cos a]

/-- The standard right-handed rotation about the Z axis by the angle `a`. -/
def rotationZ (sin cos : K → K) (a : K) : Matrix (Fin 3) (Fin 3) K :=
  !![cos a, -sin a, 0; sin a, cos a, 0; 0, 0, 1]

/-- The point `Rz(rz) * Ry(ry) * Rx(rx) * v`: rotation about X, then about Y,
then about Z, with no test on the angles. -/
def rotateStandard (sin cos : K → K) (v : Point3D K) (rx ry rz : K) : Point3D K :=
  let w := Matrix.mulVec
    (rotationZ sin cos rz * rotationY sin cos ry * rotationX sin cos rx) ![v.x, v.y, v.z]
  ⟨w 0, w 1, w 2⟩

end RotationMatrices

/-! ## Reference definitions for the rasteriser

The quantities named by the description of `drawTriangle`: the clamped integer
bounding box, the signed-area denominator, the barycentric weights and the
interpolated depth of a pixel. -/

section RasterSpec

variable {K : Type} [LinearOrderedField K] [FloorRing K]

/-- The pixel `(x, y)` lies in the integer bounding box of the triangle,
clamped to a canvas of the given size. -/
def inClampedBox (width height : Nat) (x1 y1 x2 y2 x3 y3 : K) (x y : Int) : Prop :=
  (max 0 ⌊min (min x1 x2) x3⌋ ≤ x ∧ x ≤ min ((width : Int) - 1) ⌈max (max x1 x2) x3⌉) ∧
  (max 0 ⌊min (min y1 y2) y3⌋ ≤ y ∧ y ≤ min ((height : Int) - 1) ⌈max (max y1 y2) y3⌉)

instance (width height : Nat) (x1 y1 x2 y2 x3 y3 : K) (x y : Int) :
    Decidable (inClampedBox width height x1 y1 x2 y2 x3 y3 x y) := by
  unfold inClampedBox
  infer_instance

/-- Twice the signed area of the screen triangle. -/
def triDenom (x1 y1 x2 y2 x3 y3 : K) : K :=
  (y2 - y3) * (x1 - x3) + (x3 - x2) * (y1 - y3)

/-- The barycentric weight of the first vertex at the pixel `(x, y)`. -/
def triLambda1 (x1 y1 x2 y2 x3 y3 : K) (x y : Int) : K :=
  ((y2 - y3) * ((x : K) - x3) + (x3 - x2) * ((y : K) - y3)) / triDenom x1 y1 x2 y2 x3 y3

/-- The barycentric weight of the second vertex at the pixel `(x, y)`. -/
def triLambda2 (x1 y1 x2 y2 x3 y3 : K) (x y : Int) : K :=
  ((y3 - y1) * ((x : K) - x3) + (x1 - x3) * ((y : K) - y3)) / triDenom x1 y1 x2 y2 x3 y3

/-- The barycentric weight of the third vertex at the pixel `(x, y)`. -/
def triLambda3 (x1 y1 x2 y2 x3 y3 : K) (x y : Int) : K :=
  1 - triLambda1 x1 y1 x2 y2 x3 y3 x y - triLambda2 x1 y1 x2 y2 x3 y3 x y

/-- The depth interpolated at the pixel `(x, y)`. -/
def triDepth (x1 y1 z1 x2 y2 z2 x3 y3 z3 : K) (x y : Int) : K :=
  triLambda1 x1 y1 x2 y2 x3 y3 x y * z1 + triLambda2 x1 y1 x2 y2 x3 y3 x y * z2
    + triLambda3 x1 y1 x2 y2 x3 y3 x y * z3

/-- The triangle is not degenerate and the pixel `(x, y)` is inside it: the
denominator has magnitude at least `0.0001` and the three weights are `≥ 0`. -/
def triInside (x1 y1 x2 y2 x3 y3 : K) (x y : Int) : Prop :=
  |triDenom x1 y1 x2 y2 x3 y3| ≥ 0.0001 ∧
  triLambda1 x1 y1 x2 y2 x3 y3 x y ≥ 0 ∧ triLambda2 x1 y1 x2 y2 x3 y3 x y ≥ 0 ∧
  triLambda3 x1 y1 x2 y2 x3 y3 x y ≥ 0

instance (x1 y1 x2 y2 x3 y3 : K) (x y : Int) :
    Decidable (triInside x1 y1 x2 y2 x3 y3 x y) := by
  unfold triInside
  infer_instance

/-- The pixel `(x, y)` is covered by the triangle on a canvas of the given
size: it is in the clamped bounding box and inside the triangle. -/
def triCovers (width height : Nat) (x1 y1 x2 y2 x3 y3 : K) (x y : Int) : Prop :=
  inClampedBox width height x1 y1 x2 y2 x3 y3 x y ∧ triInside x1 y1 x2 y2 x3 y3 x y

instance (width height : Nat) (x1 y1 x2 y2 x3 y3 : K) (x y : Int) :
    Decidable (triCovers width height x1 y1 x2 y2 x3 y3 x y) := by
  unfold triCovers
  infer_instance

/-- The depth test on one pixel: from the colour and the stored depth of the
pixel, the colour and the stored depth after a write of depth `z` and colour
`color` is attempted, when `covered` holds. -/
def depthTest (covered : Prop) [Decidable covered] (z : K) (color : String)
    (o : String × Option K) : String × Option K :=
  if covered then
    match o.2 with
    | none => o
    | some stored => if z < stored ∧ z > 0 then (color, some z) else o
  else o

/-- The colour of the pixel `(x, y)` and the depth stored for it. -/
def pixelState (v : Viewer K) (x y : Int) : String × Option K :=
  (v.pixels x y, v.zBuffer[(y * (v.width : Int) + x).toNat]?)

/-- Pointwise order of depth buffers: same length and every entry of `new` is
at most the entry of `old` at the same index. -/
def DepthLE (new old : List K) : Prop :=
  new.length = old.length ∧
    ∀ (i : Nat) (a b : K), old[i]? = some a → new[i]? = some b → b ≤ a

/-- The three screen points lie on one line `a * x + b * y = c`. -/
def Collinear2D (x1 y1 x2 y2 x3 y3 : K) : Prop :=
  ∃ a b c : K, (a ≠ 0 ∨ b ≠ 0) ∧
    a * x1 + b * y1 = c ∧ a * x2 + b * y2 = c ∧ a * x3 + b * y3 = c

end RasterSpec

/-! ## Reference definitions for the face geometry

The quantities named by the description of the faces: the mean of a list of
points, the first vertex and the unnormalised normal of a face, its centre,
and three points on one line. -/

section FaceSpec

variable {K : Type} [LinearOrderedField K]

/-- The arithmetic mean of a list of points. -/
def meanPoint (pts : List (Point3D K)) : Point3D K :=
  ⟨(pts.map (fun p => p.x)).sum / (pts.length : K),
   (pts.map (fun p => p.y)).sum / (pts.length : K),
   (pts.map (fun p => p.z)).sum / (pts.length : K)⟩

/-- The first vertex `v0` of a face and the vector `cross(v1 - v0, v2 - v0)`
taken from its first three vertices; `none` for a face with fewer than three
indices or with one of the three outside the vertex list. -/
def faceFrame (vertices : List (Point3D K)) (face : List Nat) :
    Option (Point3D K × Point3D K) :=
  match face with
  | i0 :: i1 :: i2 :: _ =>
    match vertices[i0]?, vertices[i1]?, vertices[i2]? with
    | some v0, some v1, some v2 =>
      some (v0, (v1.subtract v0).cross (v2.subtract v0))
    | _, _, _ => none
  | _ => none

/-- The centre of a face: the mean of the vertices it references. -/
def faceCentre (vertices : List (Point3D K)) (face : List Nat) : Point3D K :=
  meanPoint (face.filterMap (fun idx => vertices[idx]?))

/-- The three points lie on one line `p + t * d`. -/
def Collinear3D (v0 v1 v2 : Point3D K) : Prop :=
  ∃ (p d : Point3D K) (t0 t1 t2 : K),
    v0 = ⟨p.x + t0 * d.x, p.y + t0 * d.y, p.z + t0 * d.z⟩ ∧
    v1 = ⟨p.x + t1 * d.x, p.y + t1 * d.y, p.z + t1 * d.z⟩ ∧
    v2 = ⟨p.x + t2 * d.x, p.y + t2 * d.y, p.z + t2 * d.z⟩

variable [FloorRing K]

/-- The pixels `(x, y)` that the two nested loops of `drawTriangle` visit, in
the order of the visits, on a canvas of the given size. -/
def visitedPixels (width height : Nat) (x1 y1 x2 y2 x3 y3 : K) : List (Int × Int) :=
  (loopRange (max 0 ⌊min (min y1 y2) y3⌋)
      (min ((height : Int) - 1) ⌈max (max y1 y2) y3⌉)).flatMap
    (fun y => (loopRange (max 0 ⌊min (min x1 x2) x3⌋)
      (min ((width : Int) - 1) ⌈max (max x1 x2) x3⌉)).map (fun x => (x, y)))

end FaceSpec

/-! ## Vector lemmas over the reals -/

theorem Point3D.length_sq_nonneg (v : Point3D ℝ) : 0 ≤ v.x * v.x + v.y * v.y + v.z * v.z := by
  nlinarith [mul_self_nonneg v.x, mul_self_nonneg v.y, mul_self_nonneg v.z]

theorem Point3D.sq_sum_pos_of_ne_zero (v : Point3D ℝ) (h : v ≠ ⟨0, 0, 0⟩) :
    0 < v.x * v.x + v.y * v.y + v.z * v.z := by
  rcases v with ⟨x, y, z⟩
  by_contra hle
  have h0 : x * x + y * y + z * z = 0 :=
    le_antisymm (not_lt.mp hle) (Point3D.length_sq_nonneg ⟨x, y, z⟩)
  have hx : x = 0 := by nlinarith [mul_self_nonneg x, mul_self_nonneg y, mul_self_nonneg z]
  have hy : y = 0 := by nlinarith [mul_self_nonneg x, mul_self_nonneg y, mul_self_nonneg z]
  have hz : z = 0 := by nlinarith [mul_self_nonneg x, mul_self_nonneg y, mul_self_nonneg z]
  exact h (by rw [hx, hy, hz])

theorem Point3D.length_pos_of_ne_zero (v : Point3D ℝ) (h : v ≠ ⟨0, 0, 0⟩) :
    0 < v.length Real.sqrt :=
  Real.sqrt_pos.mpr (Point3D.sq_sum_pos_of_ne_zero v h)

theorem Point3D.length_zero_vec : (⟨0, 0, 0⟩ : Point3D ℝ).length Real.sqrt = 0 := by
  simp [Point3D.length]

/-- For a vector with positive length, `normalize` divides by the length. -/
theorem Point3D.normalize_of_pos (v : Point3D ℝ) (h : 0 < v.length Real.sqrt) :
    v.normalize Real.sqrt =
      ⟨v.x / v.length Real.sqrt, v.y / v.length Real.sqrt, v.z / v.length Real.sqrt⟩ := by
  simp [Point3D.normalize, h]

/-- The rotation written without the tests on the angles. -/
theorem rotatePoint_unconditional (p : Point3D ℝ) (rx ry rz : ℝ) :
    rotatePoint Real.sin Real.cos p rx ry rz =
      ⟨(p.x * Real.cos ry + (p.y * Real.sin rx + p.z * Real.cos rx) * Real.sin ry)
          * Real.cos rz - (p.y * Real.cos rx - p.z * Real.sin rx) * Real.sin rz,
       (p.x * Real.cos ry + (p.y * Real.sin rx + p.z * Real.cos rx) * Real.sin ry)
          * Real.sin rz + (p.y * Real.cos rx - p.z * Real.sin rx) * Real.cos rz,
       -p.x * Real.sin ry + (p.y * Real.sin rx + p.z * Real.cos rx) * Real.cos ry⟩ := by
  unfold rotatePoint
  by_cases hx : rx = 0 <;> by_cases hy : ry = 0 <;> by_cases hz : rz = 0 <;>
    simp [hx, hy, hz]

/-! ## Claims on the vector and rotation code -/

/-- C8: rotation preserves length: for every point and all real angles,
`length(rotatePoint(v, rx, ry, rz)) = length(v)`. -/
theorem rotatePoint_preserves_length (v : Point3D ℝ) (rx ry rz : ℝ) :
    (rotatePoint Real.sin Real.cos v rx ry rz).length Real.sqrt = v.length Real.sqrt := by
  rw [rotatePoint_unconditional]
  unfold Point3D.length
  congr 1
  have h1 := Real.sin_sq_add_cos_sq rx
  have h2 := Real.sin_sq_add_cos_sq ry
  have h3 := Real.sin_sq_add_cos_sq rz
  have e1 : Real.sin rx ^ 2 = 1 - Real.cos rx ^ 2 := by linarith
  have e2 : Real.sin ry ^ 2 = 1 - Real.cos ry ^ 2 := by linarith
  have e3 : Real.sin rz ^ 2 = 1 - Real.cos rz ^ 2 := by linarith
  simp only []
  ring_nf
  simp only [e1, e2, e3]
  ring

/-- C9: skipping a zero angle is a pure optimisation: `rotatePoint` equals the
unconditional product `Rz(rz) * Ry(ry) * Rx(rx) * v` of the standard
right-handed rotation matrices. -/
theorem rotatePoint_eq_rotateStandard (v : Point3D ℝ) (rx ry rz : ℝ) :
    rotatePoint Real.sin Real.cos v rx ry rz =
      rotateStandard Real.sin Real.cos v rx ry rz := by
  rw [rotatePoint_unconditional]
  simp only [rotateStandard, rotationX, rotationY, rotationZ]
  congr 1 <;>
    simp [Matrix.mulVec, Matrix.mul_apply, Matrix.dotProduct, Fin.sum_univ_three,
      Matrix.vecHead, Matrix.vecTail] <;> ring

/-- C10: `normalize` is total; a non-zero vector is mapped to a positive
multiple of itself of length exactly 1, and the zero vector is returned
unchanged. -/
theorem normalize_total_unit_or_zero (v : Point3D ℝ) :
    (v ≠ ⟨0, 0, 0⟩ →
      (v.normalize Real.sqrt).length Real.sqrt = 1 ∧
      ∃ c : ℝ, 0 < c ∧ v.normalize Real.sqrt = ⟨c * v.x, c * v.y, c * v.z⟩) ∧
    (v = ⟨0, 0, 0⟩ → v.normalize Real.sqrt = v) := by
  constructor
  · intro hv
    have hpos := Point3D.length_pos_of_ne_zero v hv
    have hsq : v.length Real.sqrt * v.length Real.sqrt
        = v.x * v.x + v.y * v.y + v.z * v.z :=
      Real.mul_self_sqrt (Point3D.length_sq_nonneg v)
    rw [Point3D.normalize_of_pos v hpos]
    constructor
    · have hne : v.length Real.sqrt ≠ 0 := ne_of_gt hpos
      have : v.x / v.length Real.sqrt * (v.x / v.length Real.sqrt)
          + v.y / v.length Real.sqrt * (v.y / v.length Real.sqrt)
          + v.z / v.length Real.sqrt * (v.z / v.length Real.sqrt) = 1 := by
        field_simp
        linarith
      show Real.sqrt _ = 1
      simp only []
      rw [this, Real.sqrt_one]
    · refine ⟨(v.length Real.sqrt)⁻¹, inv_pos.mpr hpos, ?_⟩
      congr 1 <;> rw [div_eq_inv_mul]
  · intro hv
    subst hv
    simp [Point3D.normalize, Point3D.length]

/-! ## Loops -/

theorem mem_loopRange (lo hi x : Int) : x ∈ loopRange lo hi ↔ lo ≤ x ∧ x ≤ hi := by
  unfold loopRange
  simp only [List.mem_map, List.mem_range]
  constructor
  · rintro ⟨i, hi1, rfl⟩
    omega
  · rintro ⟨h1, h2⟩
    exact ⟨(x - lo).toNat, by omega, by omega⟩

theorem nodup_loopRange (lo hi : Int) : (loopRange lo hi).Nodup := by
  unfold loopRange
  apply List.Nodup.map _ (List.nodup_range _)
  intro a b h
  simpa using h

/-- A property kept by every step of a loop holds after the loop. -/
theorem foldl_keeps {S α : Type} (step : S → α → S) (P : S → Prop) (l : List α)
    (hstep : ∀ s a, a ∈ l → P s → P (step s a)) (s : S) (hs : P s) :
    P (l.foldl step s) := by
  induction l generalizing s with
  | nil => exact hs
  | cons a l ih =>
    simp only [List.foldl_cons]
    apply ih
    · intro s b hb hP
      exact hstep s b (List.mem_cons_of_mem _ hb) hP
    · exact hstep s a (List.mem_cons_self _ _) hs

/-- A loop over distinct items of which only the item `a₀` changes the
observation `obs`, by `T`: after the loop the observation is `T` of the
initial one when `a₀` was visited, and the initial one otherwise. -/
theorem foldl_observe {S α β : Type} [DecidableEq α] (step : S → α → S)
    (obs : S → β) (Inv : S → Prop) (T : β → β) (a₀ : α) (l : List α)
    (hnd : l.Nodup)
    (hInv : ∀ s a, a ∈ l → Inv s → Inv (step s a))
    (hother : ∀ s a, a ∈ l → a ≠ a₀ → Inv s → obs (step s a) = obs s)
    (hhit : ∀ s, a₀ ∈ l → Inv s → obs (step s a₀) = T (obs s))
    (s : S) (hs : Inv s) :
    Inv (l.foldl step s) ∧
      obs (l.foldl step s) = if a₀ ∈ l then T (obs s) else obs s := by
  induction l generalizing s with
  | nil => exact ⟨hs, by simp⟩
  | cons a l ih =>
    have hnd2 := List.nodup_cons.mp hnd
    have ih2 := ih hnd2.2
      (fun s b hb hI => hInv s b (List.mem_cons_of_mem _ hb) hI)
      (fun s b hb hne hI => hother s b (List.mem_cons_of_mem _ hb) hne hI)
      (fun s hb hI => hhit s (List.mem_cons_of_mem _ hb) hI)
      (step s a) (hInv s a (List.mem_cons_self _ _) hs)
    simp only [List.foldl_cons]
    refine ⟨ih2.1, ?_⟩
    rw [ih2.2]
    by_cases hEq : a = a₀
    · subst hEq
      have hnot : a ∉ l := hnd2.1
      simp [hnot, hhit s (List.mem_cons_self _ _) hs]
    · have hne : a₀ ≠ a := fun h => hEq h.symm
      rw [hother s a (List.mem_cons_self _ _) hEq hs]
      simp [List.mem_cons, hne]

/-! ## The loop body of `drawTriangle` -/

section Raster

set_option linter.unusedSectionVars false

variable {K : Type} [LinearOrderedField K] [FloorRing K]

/-- Two pixels with columns in `[0, W)` and non-negative rows that have the
same buffer index are the same pixel. -/
theorem bufferIndex_inj (W : Nat) (x y px py : Int) (hx0 : 0 ≤ x) (hxW : x < W)
    (hp0 : 0 ≤ px) (hpW : px < W) (hy : 0 ≤ y) (hpy : 0 ≤ py)
    (h : (y * (W : Int) + x).toNat = (py * (W : Int) + px).toNat) : x = px ∧ y = py := by
  have hW : (0 : Int) ≤ (W : Int) := Int.ofNat_nonneg W
  have h1 : 0 ≤ y * (W : Int) := mul_nonneg hy hW
  have h2 : 0 ≤ py * (W : Int) := mul_nonneg hpy hW
  have hyy : y = py := by
    rcases lt_trichotomy y py with hlt | heq | hgt
    · exfalso
      have h3 : (y + 1) * (W : Int) ≤ py * (W : Int) :=
        mul_le_mul_of_nonneg_right (by omega) hW
      have h4 : (y + 1) * (W : Int) = y * (W : Int) + (W : Int) := by ring
      rw [h4] at h3
      generalize y * (W : Int) = a at *
      generalize py * (W : Int) = b at *
      omega
    · exact heq
    · exfalso
      have h3 : (py + 1) * (W : Int) ≤ y * (W : Int) :=
        mul_le_mul_of_nonneg_right (by omega) hW
      have h4 : (py + 1) * (W : Int) = py * (W : Int) + (W : Int) := by ring
      rw [h4] at h3
      generalize y * (W : Int) = a at *
      generalize py * (W : Int) = b at *
      omega
  subst hyy
  refine ⟨?_, rfl⟩
  generalize y * (W : Int) = a at *
  omega

/-- The loop body changes at most the canvas contents and the depth buffer. -/
theorem drawTrianglePixel_frame (x1 y1 z1 x2 y2 z2 x3 y3 z3 : K) (color : String)
    (v : Viewer K) (x y : Int) :
    ∃ px zb, drawTrianglePixel x1 y1 z1 x2 y2 z2 x3 y3 z3 color v x y
      = { v with pixels := px, zBuffer := zb } := by
  unfold drawTrianglePixel
  simp only []
  split_ifs
  · exact ⟨v.pixels, v.zBuffer, rfl⟩
  · split
    · exact ⟨v.pixels, v.zBuffer, rfl⟩
    · split_ifs
      · exact ⟨_, _, rfl⟩
      · exact ⟨v.pixels, v.zBuffer, rfl⟩
  · exact ⟨v.pixels, v.zBuffer, rfl⟩

theorem drawTrianglePixel_width (x1 y1 z1 x2 y2 z2 x3 y3 z3 : K) (color : String)
    (v : Viewer K) (x y : Int) :
    (drawTrianglePixel x1 y1 z1 x2 y2 z2 x3 y3 z3 color v x y).width = v.width ∧
    (drawTrianglePixel x1 y1 z1 x2 y2 z2 x3 y3 z3 color v x y).height = v.height := by
  obtain ⟨px, zb, h⟩ := drawTrianglePixel_frame x1 y1 z1 x2 y2 z2 x3 y3 z3 color v x y
  rw [h]
  exact ⟨rfl, rfl⟩

/-- The loop body at the pixel `(x, y)` leaves the colour of any other pixel. -/
theorem drawTrianglePixel_pixels_other (x1 y1 z1 x2 y2 z2 x3 y3 z3 : K)
    (color : String) (v : Viewer K) (x y px py : Int) (hne : ¬ (px = x ∧ py = y)) :
    (drawTrianglePixel x1 y1 z1 x2 y2 z2 x3 y3 z3 color v x y).pixels px py
      = v.pixels px py := by
  unfold drawTrianglePixel
  simp only []
  split_ifs
  · rfl
  · split
    · rfl
    · split_ifs
      · simp only [fillPixel]
        rw [if_neg]
        intro h
        exact hne ⟨h.1, h.2.1⟩
      · rfl
  · rfl

/-- The loop body at the pixel `(x, y)` leaves every entry of the depth buffer
other than the one at its buffer index. -/
theorem drawTrianglePixel_zBuffer_other (x1 y1 z1 x2 y2 z2 x3 y3 z3 : K)
    (color : String) (v : Viewer K) (x y : Int) (i : Nat)
    (hne : (y * (v.width : Int) + x).toNat ≠ i) :
    (drawTrianglePixel x1 y1 z1 x2 y2 z2 x3 y3 z3 color v x y).zBuffer[i]?
      = v.zBuffer[i]? := by
  unfold drawTrianglePixel
  simp only []
  split_ifs
  · rfl
  · split
    · rfl
    · split_ifs
      · simp only []
        exact List.getElem?_set_ne hne
      · rfl
  · rfl

/-- The loop body at a pixel of the canvas applies the depth test to it. -/
theorem drawTrianglePixel_self (x1 y1 z1 x2 y2 z2 x3 y3 z3 : K) (color : String)
    (v : Viewer K) (x y : Int) (hx0 : 0 ≤ x) (hxW : x < v.width) (hy0 : 0 ≤ y)
    (hyH : y < v.height) :
    pixelState (drawTrianglePixel x1 y1 z1 x2 y2 z2 x3 y3 z3 color v x y) x y
      = depthTest (triInside x1 y1 x2 y2 x3 y3 x y)
          (triDepth x1 y1 z1 x2 y2 z2 x3 y3 z3 x y) color (pixelState v x y) := by
  unfold drawTrianglePixel depthTest pixelState triInside triDepth triLambda3
    triLambda2 triLambda1 triDenom
  simp only []
  by_cases hd : |(y2 - y3) * (x1 - x3) + (x3 - x2) * (y1 - y3)| < 0.0001
  · have hd2 : ¬ (|(y2 - y3) * (x1 - x3) + (x3 - x2) * (y1 - y3)| ≥ 0.0001) :=
      not_le.mpr hd
    simp only [hd, hd2, if_true, false_and, if_false]
  · have hd2 : |(y2 - y3) * (x1 - x3) + (x3 - x2) * (y1 - y3)| ≥ 0.0001 :=
      not_lt.mp hd
    simp only [hd, hd2, if_false, true_and]
    split_ifs with hin
    · cases hz : v.zBuffer[(y * (v.width : Int) + x).toNat]? with
      | none => rw [hz]
      | some stored =>
        have hlt : (y * (v.width : Int) + x).toNat < v.zBuffer.length := by
          rcases Nat.lt_or_ge (y * (v.width : Int) + x).toNat v.zBuffer.length with h | h
          · exact h
          · rw [List.getElem?_eq_none h] at hz
            exact absurd hz (by simp)
        simp only []
        split_ifs with hw
        · simp only [fillPixel, List.getElem?_set_self hlt]
          rw [if_pos ⟨trivial, trivial, hx0, hxW, hy0, hyH⟩]
        · simp only [hz]
    · rfl

/-- The loop body at the pixel `(x, y)` leaves the state of any other pixel. -/
theorem drawTrianglePixel_other (x1 y1 z1 x2 y2 z2 x3 y3 z3 : K) (color : String)
    (v : Viewer K) (x y px py : Int) (hx0 : 0 ≤ x) (hxW : x < v.width) (hy0 : 0 ≤ y)
    (hp0 : 0 ≤ px) (hpW : px < v.width) (hpy : 0 ≤ py) (hne : ¬ (px = x ∧ py = y)) :
    pixelState (drawTrianglePixel x1 y1 z1 x2 y2 z2 x3 y3 z3 color v x y) px py
      = pixelState v px py := by
  unfold pixelState
  rw [drawTrianglePixel_pixels_other x1 y1 z1 x2 y2 z2 x3 y3 z3 color v x y px py hne,
    (drawTrianglePixel_width x1 y1 z1 x2 y2 z2 x3 y3 z3 color v x y).1,
    drawTrianglePixel_zBuffer_other]
  intro h
  have := bufferIndex_inj v.width x y px py hx0 hxW hp0 hpW hy0 hpy h
  exact hne ⟨this.1.symm, this.2.symm⟩

/-! ## The loops of `drawTriangle` -/

/-- One row of `drawTriangle`: the inner loop over `x` at the row `y`. -/
theorem drawTriangle_row (x1 y1 z1 x2 y2 z2 x3 y3 z3 : K) (color : String)
    (W H : Nat) (xs : List Int) (hxs : ∀ x ∈ xs, 0 ≤ x ∧ x < W) (hnd : xs.Nodup)
    (px py y : Int) (hp0 : 0 ≤ px) (hpW : px < W) (hpy : 0 ≤ py) (hpH : py < H)
    (hy0 : 0 ≤ y) (s : Viewer K) (hs : s.width = W ∧ s.height = H) :
    ((xs.foldl (fun v x => drawTrianglePixel x1 y1 z1 x2 y2 z2 x3 y3 z3 color v x y) s).width
        = W ∧
      (xs.foldl (fun v x => drawTrianglePixel x1 y1 z1 x2 y2 z2 x3 y3 z3 color v x y) s).height
        = H) ∧
    pixelState
        (xs.foldl (fun v x => drawTrianglePixel x1 y1 z1 x2 y2 z2 x3 y3 z3 color v x y) s)
        px py
      = if y = py ∧ px ∈ xs then
          depthTest (triInside x1 y1 x2 y2 x3 y3 px py)
            (triDepth x1 y1 z1 x2 y2 z2 x3 y3 z3 px py) color (pixelState s px py)
        else pixelState s px py := by
  have hInv : ∀ (s : Viewer K) (a : Int), a ∈ xs → (s.width = W ∧ s.height = H) →
      ((drawTrianglePixel x1 y1 z1 x2 y2 z2 x3 y3 z3 color s a y).width = W ∧
       (drawTrianglePixel x1 y1 z1 x2 y2 z2 x3 y3 z3 color s a y).height = H) := by
    intro s a _ hI
    have hw := drawTrianglePixel_width x1 y1 z1 x2 y2 z2 x3 y3 z3 color s a y
    exact ⟨hw.1.trans hI.1, hw.2.trans hI.2⟩
  by_cases hyp : y = py
  · subst hyp
    have h := foldl_observe
      (fun v x => drawTrianglePixel x1 y1 z1 x2 y2 z2 x3 y3 z3 color v x y)
      (fun v => pixelState v px y) (fun v => v.width = W ∧ v.height = H)
      (depthTest (triInside x1 y1 x2 y2 x3 y3 px y)
        (triDepth x1 y1 z1 x2 y2 z2 x3 y3 z3 px y) color)
      px xs hnd hInv
      (by
        intro s a ha hne hI
        have hb := hxs a ha
        exact drawTrianglePixel_other x1 y1 z1 x2 y2 z2 x3 y3 z3 color s a y px y
          hb.1 (by rw [hI.1]; exact hb.2) hy0 hp0 (by rw [hI.1]; exact hpW) hpy
          (fun hc => hne hc.1.symm))
      (by
        intro s _ hI
        exact drawTrianglePixel_self x1 y1 z1 x2 y2 z2 x3 y3 z3 color s px y hp0
          (by rw [hI.1]; exact hpW) hpy (by rw [hI.2]; exact hpH))
      s hs
    simp only [] at h
    refine ⟨h.1, ?_⟩
    rw [h.2]
    simp
  · have h := foldl_keeps
      (fun v x => drawTrianglePixel x1 y1 z1 x2 y2 z2 x3 y3 z3 color v x y)
      (fun v => (v.width = W ∧ v.height = H) ∧ pixelState v px py = pixelState s px py)
      xs
      (by
        intro t a ha hP
        have hb := hxs a ha
        refine ⟨hInv t a ha hP.1, ?_⟩
        rw [← hP.2]
        exact drawTrianglePixel_other x1 y1 z1 x2 y2 z2 x3 y3 z3 color t a y px py
          hb.1 (by rw [hP.1.1]; exact hb.2) hy0 hp0 (by rw [hP.1.1]; exact hpW) hpy
          (fun hc => hyp hc.2.symm))
      s ⟨hs, rfl⟩
    refine ⟨h.1, ?_⟩
    rw [h.2]
    simp [hyp]

/-- After `drawTriangle`, the state of a pixel of the canvas is the result of
the depth test on its previous state, applied when the triangle covers it. -/
theorem drawTriangle_pixelState (v : Viewer K) (x1 y1 z1 x2 y2 z2 x3 y3 z3 : K)
    (color : String) (px py : Int) (hp0 : 0 ≤ px) (hpW : px < v.width) (hpy : 0 ≤ py)
    (hpH : py < v.height) :
    pixelState (drawTriangle v x1 y1 z1 x2 y2 z2 x3 y3 z3 color) px py
      = depthTest (triCovers v.width v.height x1 y1 x2 y2 x3 y3 px py)
          (triDepth x1 y1 z1 x2 y2 z2 x3 y3 z3 px py) color (pixelState v px py) := by
  unfold drawTriangle
  simp only []
  generalize hminX : (max 0 ⌊min (min x1 x2) x3⌋ : Int) = minX
  generalize hmaxX : (min ((v.width : Int) - 1) ⌈max (max x1 x2) x3⌉ : Int) = maxX
  generalize hminY : (max 0 ⌊min (min y1 y2) y3⌋ : Int) = minY
  generalize hmaxY : (min ((v.height : Int) - 1) ⌈max (max y1 y2) y3⌉ : Int) = maxY
  have hxs : ∀ x ∈ loopRange minX maxX, 0 ≤ x ∧ x < (v.width : Int) := by
    intro x hx
    rw [mem_loopRange] at hx
    have h1 : (0 : Int) ≤ minX := by rw [← hminX]; exact le_max_left _ _
    have h2 : maxX ≤ (v.width : Int) - 1 := by rw [← hmaxX]; exact min_le_left _ _
    omega
  have hys : ∀ y ∈ loopRange minY maxY, 0 ≤ y := by
    intro y hy
    rw [mem_loopRange] at hy
    have h1 : (0 : Int) ≤ minY := by rw [← hminY]; exact le_max_left _ _
    omega
  have h := foldl_observe
    (fun v y => (loopRange minX maxX).foldl
      (fun v x => drawTrianglePixel x1 y1 z1 x2 y2 z2 x3 y3 z3 color v x y) v)
    (fun s => pixelState s px py) (fun s => s.width = v.width ∧ s.height = v.height)
    (fun o => if px ∈ loopRange minX maxX then
        depthTest (triInside x1 y1 x2 y2 x3 y3 px py)
          (triDepth x1 y1 z1 x2 y2 z2 x3 y3 z3 px py) color o
      else o)
    py (loopRange minY maxY) (nodup_loopRange _ _)
    (by
      intro s y hy hI
      exact (drawTriangle_row x1 y1 z1 x2 y2 z2 x3 y3 z3 color v.width v.height
        (loopRange minX maxX) hxs (nodup_loopRange _ _) px py y hp0 hpW hpy hpH
        (hys y hy) s hI).1)
    (by
      intro s y hy hne hI
      have hr := (drawTriangle_row x1 y1 z1 x2 y2 z2 x3 y3 z3 color v.width v.height
        (loopRange minX maxX) hxs (nodup_loopRange _ _) px py y hp0 hpW hpy hpH
        (hys y hy) s hI).2
      simp only [] at hr ⊢
      rw [hr]
      simp [hne])
    (by
      intro s hy hI
      have hr := (drawTriangle_row x1 y1 z1 x2 y2 z2 x3 y3 z3 color v.width v.height
        (loopRange minX maxX) hxs (nodup_loopRange _ _) px py py hp0 hpW hpy hpH
        (hys py hy) s hI).2
      simp only [] at hr ⊢
      rw [hr]
      simp)
    v ⟨rfl, rfl⟩
  simp only [] at h
  rw [h.2]
  subst hminX hmaxX hminY hmaxY
  unfold depthTest triCovers inClampedBox
  simp only [mem_loopRange]
  by_cases hA : (max 0 ⌊min (min y1 y2) y3⌋ : Int) ≤ py ∧
      py ≤ min ((v.height : Int) - 1) ⌈max (max y1 y2) y3⌉
  · by_cases hB : (max 0 ⌊min (min x1 x2) x3⌋ : Int) ≤ px ∧
        px ≤ min ((v.width : Int) - 1) ⌈max (max x1 x2) x3⌉
    · simp only [hA, hB, if_true, and_self, true_and]
    · simp only [hA, hB, if_true, if_false, and_true, false_and]
  · simp only [hA, if_false, and_false, false_and]

/-! ## Frame and monotonicity lemmas for `drawTriangle` -/

theorem DepthLE.refl (zb : List K) : DepthLE zb zb := by
  refine ⟨rfl, ?_⟩
  intro i a b ha hb
  rw [ha] at hb
  cases hb
  exact le_refl _

theorem DepthLE.trans {new mid old : List K} (h1 : DepthLE new mid)
    (h2 : DepthLE mid old) : DepthLE new old := by
  refine ⟨h1.1.trans h2.1, ?_⟩
  intro i a b ha hb
  have hi : i < mid.length := by
    rcases Nat.lt_or_ge i old.length with h | h
    · rw [h2.1]; exact h
    · rw [List.getElem?_eq_none h] at ha
      exact absurd ha (by simp)
  have hm : mid[i]? = some mid[i] := List.getElem?_eq_getElem hi
  exact le_trans (h1.2 i _ b hm hb) (h2.2 i a _ ha hm)

/-- The loop body never raises a stored depth. -/
theorem drawTrianglePixel_depthLE (x1 y1 z1 x2 y2 z2 x3 y3 z3 : K) (color : String)
    (v : Viewer K) (x y : Int) :
    DepthLE (drawTrianglePixel x1 y1 z1 x2 y2 z2 x3 y3 z3 color v x y).zBuffer
      v.zBuffer := by
  unfold drawTrianglePixel
  simp only []
  split_ifs
  · exact DepthLE.refl _
  · split
    · exact DepthLE.refl _
    · rename_i stored hz
      split_ifs with hw
      · refine ⟨List.length_set _ _ _, ?_⟩
        intro i a b ha hb
        simp only [] at hb
        by_cases hi : (y * (v.width : Int) + x).toNat = i
        · subst hi
          rw [ha] at hz
          cases hz
          have hlt : (y * (v.width : Int) + x).toNat < v.zBuffer.length := by
            rcases Nat.lt_or_ge (y * (v.width : Int) + x).toNat v.zBuffer.length
              with h | h
            · exact h
            · rw [List.getElem?_eq_none h] at ha
              exact absurd ha (by simp)
          rw [List.getElem?_set_self hlt] at hb
          cases hb
          exact le_of_lt hw.1
        · rw [List.getElem?_set_ne hi] at hb
          rw [ha] at hb
          cases hb
          exact le_refl _
      · exact DepthLE.refl _
  · exact DepthLE.refl _

/-- The method `drawTriangle` never raises a stored depth. -/
theorem drawTriangle_depthLE (v : Viewer K) (x1 y1 z1 x2 y2 z2 x3 y3 z3 : K)
    (color : String) :
    DepthLE (drawTriangle v x1 y1 z1 x2 y2 z2 x3 y3 z3 color).zBuffer v.zBuffer := by
  unfold drawTriangle
  simp only []
  refine foldl_keeps _ (fun s : Viewer K => DepthLE s.zBuffer v.zBuffer) _ ?_ _ ?_
  · intro s y _ hs
    refine foldl_keeps _ (fun t : Viewer K => DepthLE t.zBuffer v.zBuffer) _ ?_ _ ?_
    · intro t x _ ht
      exact DepthLE.trans (drawTrianglePixel_depthLE x1 y1 z1 x2 y2 z2 x3 y3 z3 color t x y) ht
    · exact hs
  · exact DepthLE.refl _

/-- The method `drawTriangle` changes at most the canvas contents and the depth
buffer. -/
theorem drawTriangle_frame (v : Viewer K) (x1 y1 z1 x2 y2 z2 x3 y3 z3 : K)
    (color : String) :
    ∃ px zb, drawTriangle v x1 y1 z1 x2 y2 z2 x3 y3 z3 color
      = { v with pixels := px, zBuffer := zb } := by
  unfold drawTriangle
  simp only []
  refine foldl_keeps _
    (fun s : Viewer K => ∃ px zb, s = { v with pixels := px, zBuffer := zb }) _ ?_ _ ?_
  · intro s y _ hs
    refine foldl_keeps _
      (fun t : Viewer K => ∃ px zb, t = { v with pixels := px, zBuffer := zb }) _ ?_ _ ?_
    · intro t x _ ht
      obtain ⟨p1, z1', h1⟩ := ht
      obtain ⟨p2, z2', h2⟩ :=
        drawTrianglePixel_frame x1 y1 z1 x2 y2 z2 x3 y3 z3 color t x y
      exact ⟨p2, z2', by rw [h2, h1]⟩
    · exact hs
  · exact ⟨v.pixels, v.zBuffer, rfl⟩

/-- The loop body paints no pixel off the canvas. -/
theorem drawTrianglePixel_pixels_off (x1 y1 z1 x2 y2 z2 x3 y3 z3 : K)
    (color : String) (v : Viewer K) (x y px py : Int)
    (hoff : ¬ (0 ≤ px ∧ px < v.width ∧ 0 ≤ py ∧ py < v.height)) :
    (drawTrianglePixel x1 y1 z1 x2 y2 z2 x3 y3 z3 color v x y).pixels px py
      = v.pixels px py := by
  by_cases hne : px = x ∧ py = y
  · obtain ⟨rfl, rfl⟩ := hne
    unfold drawTrianglePixel
    simp only []
    split_ifs
    · rfl
    · split
      · rfl
      · split_ifs
        · simp only [fillPixel]
          rw [if_neg]
          intro h
          exact hoff h.2.2
        · rfl
    · rfl
  · exact drawTrianglePixel_pixels_other x1 y1 z1 x2 y2 z2 x3 y3 z3 color v x y px py hne

/-- The method `drawTriangle` paints no pixel off the canvas. -/
theorem drawTriangle_pixels_off (v : Viewer K) (x1 y1 z1 x2 y2 z2 x3 y3 z3 : K)
    (color : String) (px py : Int)
    (hoff : ¬ (0 ≤ px ∧ px < v.width ∧ 0 ≤ py ∧ py < v.height)) :
    (drawTriangle v x1 y1 z1 x2 y2 z2 x3 y3 z3 color).pixels px py = v.pixels px py := by
  unfold drawTriangle
  simp only []
  have key := foldl_keeps
    (fun (s : Viewer K) (y : Int) => (loopRange (max 0 ⌊min (min x1 x2) x3⌋)
        (min ((v.width : Int) - 1) ⌈max (max x1 x2) x3⌉)).foldl
      (fun t x => drawTrianglePixel x1 y1 z1 x2 y2 z2 x3 y3 z3 color t x y) s)
    (fun s => (s.width = v.width ∧ s.height = v.height) ∧ s.pixels px py = v.pixels px py)
    (loopRange (max 0 ⌊min (min y1 y2) y3⌋)
      (min ((v.height : Int) - 1) ⌈max (max y1 y2) y3⌉))
    (by
      intro s y _ hs
      refine foldl_keeps _
        (fun t : Viewer K => (t.width = v.width ∧ t.height = v.height) ∧
          t.pixels px py = v.pixels px py) _ ?_ _ ?_
      · intro t x _ ht
        have hw := drawTrianglePixel_width x1 y1 z1 x2 y2 z2 x3 y3 z3 color t x y
        refine ⟨⟨hw.1.trans ht.1.1, hw.2.trans ht.1.2⟩, ?_⟩
        rw [drawTrianglePixel_pixels_off x1 y1 z1 x2 y2 z2 x3 y3 z3 color t x y px py
          (by rw [ht.1.1, ht.1.2]; exact hoff)]
        exact ht.2
      · exact hs)
    v ⟨⟨rfl, rfl⟩, rfl⟩
  exact key.2

end Raster

/-! ## Two triangles with the same footprint -/

section TwoTriangles

set_option linter.unusedSectionVars false

variable {K : Type} [LinearOrderedField K] [FloorRing K]

theorem drawTriangle_width (v : Viewer K) (x1 y1 z1 x2 y2 z2 x3 y3 z3 : K)
    (color : String) :
    (drawTriangle v x1 y1 z1 x2 y2 z2 x3 y3 z3 color).width = v.width ∧
    (drawTriangle v x1 y1 z1 x2 y2 z2 x3 y3 z3 color).height = v.height := by
  obtain ⟨p, zb, h⟩ := drawTriangle_frame v x1 y1 z1 x2 y2 z2 x3 y3 z3 color
  rw [h]
  exact ⟨rfl, rfl⟩

/-- A convex combination of smaller numbers is strictly smaller. -/
theorem bary_lt (l1 l2 l3 a1 a2 a3 b1 b2 b3 : K) (h1 : 0 ≤ l1) (h2 : 0 ≤ l2)
    (h3 : 0 ≤ l3) (hs : l1 + l2 + l3 = 1) (hab1 : a1 < b1) (hab2 : a2 < b2)
    (hab3 : a3 < b3) : l1 * a1 + l2 * a2 + l3 * a3 < l1 * b1 + l2 * b2 + l3 * b3 := by
  have e1 : l1 * a1 ≤ l1 * b1 := mul_le_mul_of_nonneg_left (le_of_lt hab1) h1
  have e2 : l2 * a2 ≤ l2 * b2 := mul_le_mul_of_nonneg_left (le_of_lt hab2) h2
  have e3 : l3 * a3 ≤ l3 * b3 := mul_le_mul_of_nonneg_left (le_of_lt hab3) h3
  rcases lt_or_eq_of_le h1 with p1 | p1
  · have : l1 * a1 < l1 * b1 := mul_lt_mul_of_pos_left hab1 p1
    linarith
  · rcases lt_or_eq_of_le h2 with p2 | p2
    · have : l2 * a2 < l2 * b2 := mul_lt_mul_of_pos_left hab2 p2
      linarith
    · have p3 : 0 < l3 := by
        rw [← p1, ← p2] at hs
        have : l3 = 1 := by linarith
        rw [this]
        exact zero_lt_one
      have : l3 * a3 < l3 * b3 := mul_lt_mul_of_pos_left hab3 p3
      linarith

/-- At a pixel inside the triangle, depths between `0` and `M` at the vertices
interpolate in order. -/
theorem triDepth_order (x1 y1 x2 y2 x3 y3 : K) (zA1 zA2 zA3 zB1 zB2 zB3 M : K)
    (x y : Int) (hin : triInside x1 y1 x2 y2 x3 y3 x y)
    (h1 : 0 < zA1 ∧ zA1 < zB1 ∧ zB1 < M) (h2 : 0 < zA2 ∧ zA2 < zB2 ∧ zB2 < M)
    (h3 : 0 < zA3 ∧ zA3 < zB3 ∧ zB3 < M) :
    0 < triDepth x1 y1 zA1 x2 y2 zA2 x3 y3 zA3 x y ∧
    triDepth x1 y1 zA1 x2 y2 zA2 x3 y3 zA3 x y
      < triDepth x1 y1 zB1 x2 y2 zB2 x3 y3 zB3 x y ∧
    triDepth x1 y1 zB1 x2 y2 zB2 x3 y3 zB3 x y < M := by
  obtain ⟨_, hl1, hl2, hl3⟩ := hin
  have hs : triLambda1 x1 y1 x2 y2 x3 y3 x y + triLambda2 x1 y1 x2 y2 x3 y3 x y
      + triLambda3 x1 y1 x2 y2 x3 y3 x y = 1 := by
    unfold triLambda3
    ring
  unfold triDepth
  refine ⟨?_, ?_, ?_⟩
  · have := bary_lt _ _ _ 0 0 0 zA1 zA2 zA3 hl1 hl2 hl3 hs h1.1 h2.1 h3.1
    simpa using this
  · exact bary_lt _ _ _ _ _ _ _ _ _ hl1 hl2 hl3 hs h1.2.1 h2.2.1 h3.2.1
  · have := bary_lt _ _ _ zB1 zB2 zB3 M M M hl1 hl2 hl3 hs h1.2.2 h2.2.2 h3.2.2
    have e : triLambda1 x1 y1 x2 y2 x3 y3 x y * M + triLambda2 x1 y1 x2 y2 x3 y3 x y * M
        + triLambda3 x1 y1 x2 y2 x3 y3 x y * M = M := by
      rw [← add_mul, ← add_mul, hs, one_mul]
    rw [e] at this
    exact this

/-- The depth test of a nearer and a farther write on a cleared pixel gives
the nearer write, in both orders. -/
theorem depthTest_both_orders (covered : Prop) [Decidable covered] (zA zB M : K)
    (colorA colorB p : String) (h : covered → 0 < zA ∧ zA < zB ∧ zB < M) :
    depthTest covered zB colorB (depthTest covered zA colorA (p, some M))
      = depthTest covered zA colorA (depthTest covered zB colorB (p, some M)) ∧
    (covered →
      depthTest covered zB colorB (depthTest covered zA colorA (p, some M))
        = (colorA, some zA)) := by
  unfold depthTest
  by_cases hc : covered
  · obtain ⟨h0, hAB, hBM⟩ := h hc
    have hAM : zA < M := lt_trans hAB hBM
    have h0B : 0 < zB := lt_trans h0 hAB
    have hnot : ¬ (zB < zA) := not_lt.mpr (le_of_lt hAB)
    simp only [hc, if_true, hAM, h0, hBM, h0B, hAB, and_self, gt_iff_lt, hnot, if_false,
      true_and, false_and, forall_true_left]
  · simp only [hc, if_false, false_implies, and_self]

/-- The state of a pixel of the canvas after two calls of `drawTriangle` with
the same screen coordinates. -/
theorem drawTriangle_twice_pixelState (v : Viewer K) (x1 y1 x2 y2 x3 y3 : K)
    (z1 z2 z3 w1 w2 w3 : K) (color1 color2 : String) (px py : Int)
    (hp0 : 0 ≤ px) (hpW : px < v.width) (hpy : 0 ≤ py) (hpH : py < v.height) :
    pixelState (drawTriangle (drawTriangle v x1 y1 z1 x2 y2 z2 x3 y3 z3 color1)
        x1 y1 w1 x2 y2 w2 x3 y3 w3 color2) px py
      = depthTest (triCovers v.width v.height x1 y1 x2 y2 x3 y3 px py)
          (triDepth x1 y1 w1 x2 y2 w2 x3 y3 w3 px py) color2
          (depthTest (triCovers v.width v.height x1 y1 x2 y2 x3 y3 px py)
            (triDepth x1 y1 z1 x2 y2 z2 x3 y3 z3 px py) color1 (pixelState v px py)) := by
  have hw := drawTriangle_width v x1 y1 z1 x2 y2 z2 x3 y3 z3 color1
  rw [drawTriangle_pixelState (drawTriangle v x1 y1 z1 x2 y2 z2 x3 y3 z3 color1)
    x1 y1 w1 x2 y2 w2 x3 y3 w3 color2 px py hp0 (by rw [hw.1]; exact hpW) hpy
    (by rw [hw.2]; exact hpH)]
  rw [drawTriangle_pixelState v x1 y1 z1 x2 y2 z2 x3 y3 z3 color1 px py hp0 hpW hpy hpH]
  simp only [hw.1, hw.2]

end TwoTriangles

/-! ## Claims on the depth-buffered rasteriser -/

section RasterClaims

variable {K : Type} [LinearOrderedField K] [FloorRing K]

/-- C5: postcondition of `drawTriangle`.  For every pixel `(x, y)` of the
canvas: when the pixel lies in the triangle's integer bounding box clamped to
the canvas, `|denom| ≥ 0.0001`, the three barycentric weights are `≥ 0`, the
interpolated depth `z = l1*z1 + l2*z2 + l3*z3` is strictly less than the depth
stored before the call and `z > 0`, the pixel ends with the colour `color` and
the stored depth `z`; every other pixel keeps its colour and stored depth.  So
a pixel that did not hold `color` and `z` before the call holds them after it
exactly when these conditions are met. -/
theorem drawTriangle_postcondition (v : Viewer K) (x1 y1 z1 x2 y2 z2 x3 y3 z3 : K)
    (color : String) (x y : Int) (hx : 0 ≤ x ∧ x < v.width) (hy : 0 ≤ y ∧ y < v.height) :
    let after := drawTriangle v x1 y1 z1 x2 y2 z2 x3 y3 z3 color
    let idx := (y * (v.width : Int) + x).toNat
    let z := triLambda1 x1 y1 x2 y2 x3 y3 x y * z1 + triLambda2 x1 y1 x2 y2 x3 y3 x y * z2
      + triLambda3 x1 y1 x2 y2 x3 y3 x y * z3
    let written :=
      inClampedBox v.width v.height x1 y1 x2 y2 x3 y3 x y ∧
      |triDenom x1 y1 x2 y2 x3 y3| ≥ 0.0001 ∧
      (triLambda1 x1 y1 x2 y2 x3 y3 x y ≥ 0 ∧ triLambda2 x1 y1 x2 y2 x3 y3 x y ≥ 0 ∧
        triLambda3 x1 y1 x2 y2 x3 y3 x y ≥ 0) ∧
      (∃ stored, v.zBuffer[idx]? = some stored ∧ z < stored) ∧ z > 0
    (written → after.pixels x y = color ∧ after.zBuffer[idx]? = some z) ∧
    (¬ written → after.pixels x y = v.pixels x y ∧ after.zBuffer[idx]? = v.zBuffer[idx]?) ∧
    (¬ (v.pixels x y = color ∧ v.zBuffer[idx]? = some z) →
      ((after.pixels x y = color ∧ after.zBuffer[idx]? = some z) ↔ written)) := by
  intro after idx z written
  suffices hmain : (written → after.pixels x y = color ∧ after.zBuffer[idx]? = some z) ∧
      (¬ written →
        after.pixels x y = v.pixels x y ∧ after.zBuffer[idx]? = v.zBuffer[idx]?) by
    refine ⟨hmain.1, hmain.2, ?_⟩
    intro hold
    constructor
    · intro hafter
      by_contra hnw
      have hkeep := hmain.2 hnw
      exact hold ⟨hkeep.1 ▸ hafter.1, hkeep.2 ▸ hafter.2⟩
    · exact hmain.1
  have hps := drawTriangle_pixelState v x1 y1 z1 x2 y2 z2 x3 y3 z3 color x y
    hx.1 hx.2 hy.1 hy.2
  have hw : after.width = v.width := by
    obtain ⟨p, zb, h⟩ := drawTriangle_frame v x1 y1 z1 x2 y2 z2 x3 y3 z3 color
    show (drawTriangle v x1 y1 z1 x2 y2 z2 x3 y3 z3 color).width = v.width
    rw [h]
  have hps2 : (after.pixels x y, after.zBuffer[idx]?)
      = depthTest (triCovers v.width v.height x1 y1 x2 y2 x3 y3 x y) z color
          (v.pixels x y, v.zBuffer[idx]?) := by
    have := hps
    unfold pixelState at this
    rw [show (drawTriangle v x1 y1 z1 x2 y2 z2 x3 y3 z3 color).width = v.width from hw]
      at this
    exact this
  unfold depthTest at hps2
  constructor
  · rintro ⟨hbox, hden, hl, ⟨stored, hst, hlt⟩, hpos⟩
    have hc : triCovers v.width v.height x1 y1 x2 y2 x3 y3 x y :=
      ⟨hbox, hden, hl.1, hl.2.1, hl.2.2⟩
    rw [if_pos hc] at hps2
    simp only [hst] at hps2
    rw [if_pos ⟨hlt, hpos⟩] at hps2
    exact ⟨(Prod.ext_iff.mp hps2).1, (Prod.ext_iff.mp hps2).2⟩
  · intro hnot
    by_cases hc : triCovers v.width v.height x1 y1 x2 y2 x3 y3 x y
    · rw [if_pos hc] at hps2
      cases hst : v.zBuffer[idx]? with
      | none =>
        simp only [hst] at hps2
        exact ⟨(Prod.ext_iff.mp hps2).1, (Prod.ext_iff.mp hps2).2⟩
      | some stored =>
        simp only [hst] at hps2
        have hno : ¬ (z < stored ∧ z > 0) := by
          intro hh
          exact hnot ⟨hc.1, hc.2.1, ⟨hc.2.2.1, hc.2.2.2.1, hc.2.2.2.2⟩,
            ⟨stored, hst, hh.1⟩, hh.2⟩
        rw [if_neg hno] at hps2
        exact ⟨(Prod.ext_iff.mp hps2).1, (Prod.ext_iff.mp hps2).2⟩
    · rw [if_neg hc] at hps2
      exact ⟨(Prod.ext_iff.mp hps2).1, (Prod.ext_iff.mp hps2).2⟩

/-- C6: a triangle whose three screen points are collinear (coincident points
included) writes nothing: `drawTriangle` leaves the canvas and the depth buffer
as they were, for any depths and any prior state. -/
theorem drawTriangle_collinear_unchanged (v : Viewer K)
    (x1 y1 z1 x2 y2 z2 x3 y3 z3 : K) (color : String)
    (hcol : Collinear2D x1 y1 x2 y2 x3 y3) :
    drawTriangle v x1 y1 z1 x2 y2 z2 x3 y3 z3 color = v := by
  obtain ⟨a, b, c, hab, h1, h2, h3⟩ := hcol
  have hden : (y2 - y3) * (x1 - x3) + (x3 - x2) * (y1 - y3) = 0 := by
    rcases hab with ha | hb
    · have : a * ((y2 - y3) * (x1 - x3) + (x3 - x2) * (y1 - y3)) = 0 := by
        linear_combination (y2 - y3) * h1 + (y3 - y1) * h2 + (y1 - y2) * h3
      rcases mul_eq_zero.mp this with h | h
      · exact absurd h ha
      · exact h
    · have : b * ((y2 - y3) * (x1 - x3) + (x3 - x2) * (y1 - y3)) = 0 := by
        linear_combination (x3 - x2) * h1 + (x1 - x3) * h2 + (x2 - x1) * h3
      rcases mul_eq_zero.mp this with h | h
      · exact absurd h hb
      · exact h
  have hbody : ∀ (s : Viewer K) (x y : Int),
      drawTrianglePixel x1 y1 z1 x2 y2 z2 x3 y3 z3 color s x y = s := by
    intro s x y
    unfold drawTrianglePixel
    simp only [hden]
    rw [if_pos (by norm_num)]
  unfold drawTriangle
  simp only []
  refine foldl_keeps _ (fun s : Viewer K => s = v) _ ?_ _ rfl
  intro s y _ hs
  refine foldl_keeps _ (fun t : Viewer K => t = v) _ ?_ _ hs
  intro t x _ ht
  rw [hbody]
  exact ht

/-- The method `drawFace` never raises a stored depth. -/
theorem drawFace_depthLE (api : CanvasPaths K) (v : Viewer K) (face : Face K)
    (points : List (ProjectedPoint K)) (color : String) :
    DepthLE (drawFace api v face points color).zBuffer v.zBuffer := by
  unfold drawFace
  split_ifs
  · exact DepthLE.refl _
  · split
    · exact drawTriangle_depthLE _ _ _ _ _ _ _ _ _ _ _
    · exact DepthLE.trans (drawTriangle_depthLE _ _ _ _ _ _ _ _ _ _ _)
        (drawTriangle_depthLE _ _ _ _ _ _ _ _ _ _ _)
    · exact DepthLE.refl _
  · exact DepthLE.refl _
  · exact DepthLE.refl _

/-- C7: depth-buffer monotonicity.  After a call of `drawTriangle`, after a
call of `drawFace`, and after any sequence of calls of `drawFace`, the depth
buffer has the same length and at every index the stored depth is less than or
equal to the depth stored before. -/
theorem zBuffer_never_increases (api : CanvasPaths K) (v : Viewer K) :
    (∀ (x1 y1 z1 x2 y2 z2 x3 y3 z3 : K) (color : String),
      DepthLE (drawTriangle v x1 y1 z1 x2 y2 z2 x3 y3 z3 color).zBuffer v.zBuffer) ∧
    (∀ (face : Face K) (points : List (ProjectedPoint K)) (color : String),
      DepthLE (drawFace api v face points color).zBuffer v.zBuffer) ∧
    (∀ calls : List (Face K × List (ProjectedPoint K) × String),
      DepthLE (calls.foldl (fun s c => drawFace api s c.1 c.2.1 c.2.2) v).zBuffer
        v.zBuffer) := by
  refine ⟨fun x1 y1 z1 x2 y2 z2 x3 y3 z3 color => drawTriangle_depthLE v _ _ _ _ _ _ _ _ _ _,
    fun face points color => drawFace_depthLE api v face points color, ?_⟩
  intro calls
  refine foldl_keeps _ (fun s : Viewer K => DepthLE s.zBuffer v.zBuffer) _ ?_ _
    (DepthLE.refl _)
  intro s c _ hs
  exact DepthLE.trans (drawFace_depthLE api s c.1 c.2.1 c.2.2) hs

end RasterClaims

section OrderClaim

set_option linter.unusedSectionVars false

variable {K : Type} [LinearOrderedField K] [FloorRing K]

/-- The buffer index of a pixel of the canvas is below `width * height`. -/
theorem bufferIndex_lt (W H : Nat) (px py : Int) (hp0 : 0 ≤ px) (hpW : px < W)
    (hpy : 0 ≤ py) (hpH : py < H) : (py * (W : Int) + px).toNat < W * H := by
  have hW : (0 : Int) ≤ (W : Int) := Int.ofNat_nonneg W
  have h1 : (py + 1) * (W : Int) ≤ (H : Int) * (W : Int) :=
    mul_le_mul_of_nonneg_right (by omega) hW
  have h2 : (py + 1) * (W : Int) = py * (W : Int) + (W : Int) := by ring
  have h3 : 0 ≤ py * (W : Int) := mul_nonneg hpy hW
  have h4 : ((W * H : Nat) : Int) = (H : Int) * (W : Int) := by push_cast; ring
  rw [h2] at h1
  have h5 : py * (W : Int) + px < ((W * H : Nat) : Int) := by
    rw [h4]
    generalize py * (W : Int) = a at *
    generalize (H : Int) * (W : Int) = b at *
    omega
  omega

/-- Every index below `width * height` is the buffer index of a pixel of the
canvas. -/
theorem bufferIndex_surj (W H i : Nat) (hi : i < W * H) :
    ∃ px py : Int, 0 ≤ px ∧ px < W ∧ 0 ≤ py ∧ py < H ∧
      (py * (W : Int) + px).toNat = i := by
  have hWpos : 0 < W := by
    rcases Nat.eq_zero_or_pos W with h | h
    · rw [h] at hi
      simp at hi
    · exact h
  refine ⟨((i % W : Nat) : Int), ((i / W : Nat) : Int), Int.ofNat_nonneg _, ?_,
    Int.ofNat_nonneg _, ?_, ?_⟩
  · exact_mod_cast Nat.mod_lt i hWpos
  · have : i / W < H := (Nat.div_lt_iff_lt_mul hWpos).mpr (by rw [Nat.mul_comm]; exact hi)
    exact_mod_cast this
  · have h := Nat.div_add_mod' i W
    have : ((i / W : Nat) : Int) * (W : Int) + ((i % W : Nat) : Int) = (i : Int) := by
      exact_mod_cast h
    rw [this]
    exact Int.toNat_ofNat i

/-- The state of a pixel of the canvas after `clearZBuffer`, for a depth
buffer of `width * height` entries. -/
theorem clearZBuffer_pixelState (v : Viewer K) (hlen : v.zBuffer.length = v.width * v.height)
    (px py : Int) (hp0 : 0 ≤ px) (hpW : px < v.width) (hpy : 0 ≤ py)
    (hpH : py < v.height) :
    pixelState (clearZBuffer v) px py = (v.pixels px py, some MAX_VALUE) := by
  unfold pixelState clearZBuffer
  simp only []
  have hlt := bufferIndex_lt v.width v.height px py hp0 hpW hpy hpH
  rw [List.getElem?_replicate, if_pos (by rw [hlen]; exact hlt)]

/-- C2: the depth test makes the result independent of the draw order.  On a
freshly cleared depth buffer of `width * height` entries, for two triangles `A`
and `B` with the same screen coordinates and vertex depths
`0 < zA_i < zB_i < MAX_VALUE`, drawing `A` then `B` and drawing `B` then `A`
give the same canvas contents and the same depth buffer, and every pixel
covered by the triangle ends with the colour of `A`. -/
theorem depth_test_order_independent (v : Viewer K)
    (hlen : v.zBuffer.length = v.width * v.height) (x1 y1 x2 y2 x3 y3 : K)
    (zA1 zA2 zA3 zB1 zB2 zB3 : K) (colorA colorB : String)
    (h1 : 0 < zA1 ∧ zA1 < zB1 ∧ zB1 < MAX_VALUE)
    (h2 : 0 < zA2 ∧ zA2 < zB2 ∧ zB2 < MAX_VALUE)
    (h3 : 0 < zA3 ∧ zA3 < zB3 ∧ zB3 < MAX_VALUE) :
    let ab := drawTriangle
      (drawTriangle (clearZBuffer v) x1 y1 zA1 x2 y2 zA2 x3 y3 zA3 colorA)
      x1 y1 zB1 x2 y2 zB2 x3 y3 zB3 colorB
    let ba := drawTriangle
      (drawTriangle (clearZBuffer v) x1 y1 zB1 x2 y2 zB2 x3 y3 zB3 colorB)
      x1 y1 zA1 x2 y2 zA2 x3 y3 zA3 colorA
    ab.pixels = ba.pixels ∧ ab.zBuffer = ba.zBuffer ∧
      ∀ x y : Int, triCovers v.width v.height x1 y1 x2 y2 x3 y3 x y →
        ab.pixels x y = colorA ∧ ba.pixels x y = colorA := by
  intro ab ba
  have hcw : (clearZBuffer v).width = v.width := rfl
  have hch : (clearZBuffer v).height = v.height := rfl
  have hA := drawTriangle_width (clearZBuffer v) x1 y1 zA1 x2 y2 zA2 x3 y3 zA3 colorA
  have hB := drawTriangle_width (clearZBuffer v) x1 y1 zB1 x2 y2 zB2 x3 y3 zB3 colorB
  have habw : ab.width = v.width := by
    have := (drawTriangle_width
      (drawTriangle (clearZBuffer v) x1 y1 zA1 x2 y2 zA2 x3 y3 zA3 colorA)
      x1 y1 zB1 x2 y2 zB2 x3 y3 zB3 colorB).1
    exact this.trans hA.1
  have hbaw : ba.width = v.width := by
    have := (drawTriangle_width
      (drawTriangle (clearZBuffer v) x1 y1 zB1 x2 y2 zB2 x3 y3 zB3 colorB)
      x1 y1 zA1 x2 y2 zA2 x3 y3 zA3 colorA).1
    exact this.trans hB.1
  -- the state of every pixel of the canvas, in both orders
  have hpix : ∀ px py : Int, 0 ≤ px → px < v.width → 0 ≤ py → py < v.height →
      pixelState ab px py = pixelState ba px py ∧
      (triCovers v.width v.height x1 y1 x2 y2 x3 y3 px py →
        pixelState ab px py
          = (colorA, some (triDepth x1 y1 zA1 x2 y2 zA2 x3 y3 zA3 px py))) := by
    intro px py hp0 hpW hpy hpH
    have e1 := drawTriangle_twice_pixelState (clearZBuffer v) x1 y1 x2 y2 x3 y3
      zA1 zA2 zA3 zB1 zB2 zB3 colorA colorB px py hp0 hpW hpy hpH
    have e2 := drawTriangle_twice_pixelState (clearZBuffer v) x1 y1 x2 y2 x3 y3
      zB1 zB2 zB3 zA1 zA2 zA3 colorB colorA px py hp0 hpW hpy hpH
    rw [clearZBuffer_pixelState v hlen px py hp0 hpW hpy hpH, hcw, hch] at e1 e2
    have key := depthTest_both_orders (triCovers v.width v.height x1 y1 x2 y2 x3 y3 px py)
      (triDepth x1 y1 zA1 x2 y2 zA2 x3 y3 zA3 px py)
      (triDepth x1 y1 zB1 x2 y2 zB2 x3 y3 zB3 px py) MAX_VALUE colorA colorB
      (v.pixels px py)
      (fun hc => triDepth_order x1 y1 x2 y2 x3 y3 zA1 zA2 zA3 zB1 zB2 zB3 MAX_VALUE
        px py hc.2 h1 h2 h3)
    constructor
    · show pixelState (drawTriangle _ _ _ _ _ _ _ _ _ _ _) px py
        = pixelState (drawTriangle _ _ _ _ _ _ _ _ _ _ _) px py
      rw [e1, e2]
      exact key.1
    · intro hc
      show pixelState (drawTriangle _ _ _ _ _ _ _ _ _ _ _) px py = _
      rw [e1]
      exact key.2 hc
  have hpixels : ab.pixels = ba.pixels := by
    funext px py
    by_cases hin : 0 ≤ px ∧ px < (v.width : Int) ∧ 0 ≤ py ∧ py < (v.height : Int)
    · have := (hpix px py hin.1 hin.2.1 hin.2.2.1 hin.2.2.2).1
      exact (Prod.ext_iff.mp this).1
    · have o1 : ab.pixels px py = v.pixels px py := by
        show (drawTriangle _ _ _ _ _ _ _ _ _ _ _).pixels px py = _
        rw [drawTriangle_pixels_off _ _ _ _ _ _ _ _ _ _ _ px py
          (by rw [hA.1, hA.2]; exact hin),
          drawTriangle_pixels_off _ _ _ _ _ _ _ _ _ _ _ px py (by exact hin)]
        rfl
      have o2 : ba.pixels px py = v.pixels px py := by
        show (drawTriangle _ _ _ _ _ _ _ _ _ _ _).pixels px py = _
        rw [drawTriangle_pixels_off _ _ _ _ _ _ _ _ _ _ _ px py
          (by rw [hB.1, hB.2]; exact hin),
          drawTriangle_pixels_off _ _ _ _ _ _ _ _ _ _ _ px py (by exact hin)]
        rfl
      rw [o1, o2]
  have hlenc : (clearZBuffer v).zBuffer.length = v.width * v.height := by
    show (List.replicate _ _).length = _
    rw [List.length_replicate, hlen]
  have hlab : ab.zBuffer.length = v.width * v.height := by
    have e1 := (drawTriangle_depthLE
      (drawTriangle (clearZBuffer v) x1 y1 zA1 x2 y2 zA2 x3 y3 zA3 colorA)
      x1 y1 zB1 x2 y2 zB2 x3 y3 zB3 colorB).1
    have e2 := (drawTriangle_depthLE (clearZBuffer v)
      x1 y1 zA1 x2 y2 zA2 x3 y3 zA3 colorA).1
    exact e1.trans (e2.trans hlenc)
  have hlba : ba.zBuffer.length = v.width * v.height := by
    have e1 := (drawTriangle_depthLE
      (drawTriangle (clearZBuffer v) x1 y1 zB1 x2 y2 zB2 x3 y3 zB3 colorB)
      x1 y1 zA1 x2 y2 zA2 x3 y3 zA3 colorA).1
    have e2 := (drawTriangle_depthLE (clearZBuffer v)
      x1 y1 zB1 x2 y2 zB2 x3 y3 zB3 colorB).1
    exact e1.trans (e2.trans hlenc)
  refine ⟨hpixels, ?_, ?_⟩
  · apply List.ext_getElem?
    intro i
    by_cases hi : i < v.width * v.height
    · obtain ⟨px, py, hp0, hpW, hpy, hpH, hidx⟩ := bufferIndex_surj v.width v.height i hi
      have := (Prod.ext_iff.mp (hpix px py hp0 hpW hpy hpH).1).2
      unfold pixelState at this
      simp only [habw, hbaw, hidx] at this
      exact this
    · rw [List.getElem?_eq_none (by rw [hlab]; exact not_lt.mp hi),
        List.getElem?_eq_none (by rw [hlba]; exact not_lt.mp hi)]
  · intro x y hc
    have hb := hc.1
    unfold inClampedBox at hb
    have hx0 : 0 ≤ x := le_trans (le_max_left _ _) hb.1.1
    have hxW : x < (v.width : Int) := by
      have := le_trans hb.1.2 (min_le_left _ _)
      omega
    have hy0 : 0 ≤ y := le_trans (le_max_left _ _) hb.2.1
    have hyH : y < (v.height : Int) := by
      have := le_trans hb.2.2 (min_le_left _ _)
      omega
    have e := (hpix x y hx0 hxW hy0 hyH).2 hc
    have e1 : ab.pixels x y = colorA := (Prod.ext_iff.mp e).1
    refine ⟨e1, ?_⟩
    rw [← hpixels]
    exact e1

end OrderClaim

/-! ## Visibility -/

/-- Over the reals `normalize` multiplies by a positive number (by `1` for the
zero vector). -/
theorem Point3D.normalize_eq_scale (a : Point3D ℝ) :
    ∃ c : ℝ, 0 < c ∧ a.normalize Real.sqrt = ⟨c * a.x, c * a.y, c * a.z⟩ := by
  by_cases h : 0 < a.length Real.sqrt
  · refine ⟨(a.length Real.sqrt)⁻¹, inv_pos.mpr h, ?_⟩
    rw [Point3D.normalize_of_pos a h]
    congr 1 <;> rw [div_eq_inv_mul]
  · refine ⟨1, one_pos, ?_⟩
    simp [Point3D.normalize, h]

/-- The sign test against a normalised view vector is the sign test against
the vector itself. -/
theorem Point3D.dot_normalize_pos_iff (n w : Point3D ℝ) :
    n.dot (w.normalize Real.sqrt) > 0 ↔ n.dot w > 0 := by
  obtain ⟨c, hc, he⟩ := Point3D.normalize_eq_scale w
  rw [he]
  have : n.dot ⟨c * w.x, c * w.y, c * w.z⟩ = c * n.dot w := by
    simp only [Point3D.dot]
    ring
  rw [this]
  constructor
  · intro h
    exact (pos_iff_pos_of_mul_pos h).mp hc
  · intro h
    exact mul_pos hc h

/-- The value returned by `calculateNormal` for a face with at least three
indices. -/
theorem Face.calculateNormal_value {K : Type} [LinearOrderedField K] (sqrt : K → K)
    (f : Face K) (vertices : List (Point3D K)) (i0 i1 i2 : Nat) (rest : List Nat)
    (hidx : f.vertexIndices = i0 :: i1 :: i2 :: rest) (v0 v1 v2 : Point3D K)
    (h0 : vertices[i0]? = some v0) (h1 : vertices[i1]? = some v1)
    (h2 : vertices[i2]? = some v2) (n : Point3D K) (f1 : Face K)
    (hcalc : f.calculateNormal sqrt vertices = some (n, f1)) :
    n = ((v1.subtract v0).cross (v2.subtract v0)).normalize sqrt := by
  unfold Face.calculateNormal at hcalc
  rw [hidx] at hcalc
  simp only [List.length_cons, h0, h1, h2] at hcalc
  rw [if_neg (by omega)] at hcalc
  split at hcalc
  · exact absurd hcalc (by simp)
  · simp only [Option.some.injEq, Prod.mk.injEq] at hcalc
    exact hcalc.1.symm

/-- With culling enabled, `isFaceVisible` over the reals tests the sign of the
dot product of the returned normal and the vector from the cached centre to
the camera. -/
theorem isFaceVisible_of_calculateNormal (v : Viewer ℝ) (hcull : v.backfaceCulling = true)
    (face : Face ℝ) (tv : List (Point3D ℝ)) (n : Point3D ℝ) (face1 : Face ℝ)
    (hcalc : face.calculateNormal Real.sqrt tv = some (n, face1)) :
    isFaceVisible Real.sqrt Real.sin Real.cos v face tv
      = some (decide (n.dot ((getCameraPosition Real.sin Real.cos v).subtract face1.center)
          > 0), face1) := by
  unfold isFaceVisible
  simp only [hcull, Bool.not_true, hcalc]
  rw [if_neg (by simp)]
  congr 2
  apply decide_eq_decide.mpr
  exact Point3D.dot_normalize_pos_iff n _

/-- C3: with culling enabled, for a face whose first three transformed
vertices are not collinear, with normal `n` and centre `c` as computed by
`calculateNormal`: a camera at `c + t*n` with `t > 0` finds the face visible,
and a camera at `c - t*n` with `t > 0` finds it culled. -/
theorem isFaceVisible_along_normal (v : Viewer ℝ) (hcull : v.backfaceCulling = true)
    (face : Face ℝ) (tv : List (Point3D ℝ)) (i0 i1 i2 : Nat) (rest : List Nat)
    (hidx : face.vertexIndices = i0 :: i1 :: i2 :: rest) (v0 v1 v2 : Point3D ℝ)
    (h0 : tv[i0]? = some v0) (h1 : tv[i1]? = some v1) (h2 : tv[i2]? = some v2)
    (hnc : (v1.subtract v0).cross (v2.subtract v0) ≠ ⟨0, 0, 0⟩)
    (n : Point3D ℝ) (face1 : Face ℝ)
    (hcalc : face.calculateNormal Real.sqrt tv = some (n, face1))
    (t : ℝ) (ht : 0 < t) :
    (getCameraPosition Real.sin Real.cos v
        = ⟨face1.center.x + t * n.x, face1.center.y + t * n.y, face1.center.z + t * n.z⟩ →
      isFaceVisible Real.sqrt Real.sin Real.cos v face tv = some (true, face1)) ∧
    (getCameraPosition Real.sin Real.cos v
        = ⟨face1.center.x - t * n.x, face1.center.y - t * n.y, face1.center.z - t * n.z⟩ →
      isFaceVisible Real.sqrt Real.sin Real.cos v face tv = some (false, face1)) := by
  have hn := Face.calculateNormal_value Real.sqrt face tv i0 i1 i2 rest hidx v0 v1 v2
    h0 h1 h2 n face1 hcalc
  obtain ⟨c, hc, he⟩ := Point3D.normalize_eq_scale ((v1.subtract v0).cross (v2.subtract v0))
  have hpos := Point3D.sq_sum_pos_of_ne_zero _ hnc
  have hnn : 0 < n.x * n.x + n.y * n.y + n.z * n.z := by
    rw [hn, he]
    simp only []
    have hcc : 0 < c * c := mul_pos hc hc
    nlinarith [mul_pos hcc hpos]
  rw [isFaceVisible_of_calculateNormal v hcull face tv n face1 hcalc]
  constructor
  · intro hcam
    rw [hcam]
    congr 2
    apply decide_eq_true
    simp only [Point3D.dot, Point3D.subtract]
    nlinarith [mul_pos ht hnn]
  · intro hcam
    rw [hcam]
    congr 2
    apply decide_eq_false
    simp only [Point3D.dot, Point3D.subtract]
    nlinarith [mul_pos ht hnn]

/-! ## The near-plane test of `render` -/

section NearPlane

set_option linter.unusedSectionVars false

variable {K : Type} [LinearOrderedField K] [FloorRing K]

/-- When some defined point has `z ≤ 0.1`, the test does not answer `false`. -/
theorem someNear_ne_false (points : List (Option (ProjectedPoint K)))
    (h : ∃ p, some p ∈ points ∧ p.z ≤ 0.1) : someNear points ≠ some false := by
  induction points with
  | nil =>
    obtain ⟨p, hp, _⟩ := h
    exact absurd hp (List.not_mem_nil _)
  | cons q rest ih =>
    cases q with
    | none => simp [someNear]
    | some q =>
      unfold someNear
      by_cases hq : q.z ≤ 0.1
      · simp [hq]
      · rw [if_neg hq]
        apply ih
        obtain ⟨p, hp, hz⟩ := h
        rcases List.mem_cons.mp hp with heq | hmem
        · cases heq
          exact absurd hz hq
        · exact ⟨p, hmem, hz⟩

/-- On defined points of which one has `z ≤ 0.1`, the test answers `true`. -/
theorem someNear_true (points : List (ProjectedPoint K))
    (h : ∃ p ∈ points, p.z ≤ 0.1) : someNear (points.map some) = some true := by
  induction points with
  | nil =>
    obtain ⟨p, hp, _⟩ := h
    exact absurd hp (List.not_mem_nil _)
  | cons q rest ih =>
    simp only [List.map_cons, someNear]
    by_cases hq : q.z ≤ 0.1
    · rw [if_pos hq]
    · rw [if_neg hq]
      apply ih
      obtain ⟨p, hp, hz⟩ := h
      rcases List.mem_cons.mp hp with heq | hmem
      · rw [heq] at hz
        exact absurd hz hq
      · exact ⟨p, hmem, hz⟩

/-- On defined points that all have `z > 0.1`, the test answers `false`. -/
theorem someNear_false (points : List (ProjectedPoint K))
    (h : ∀ p ∈ points, p.z > 0.1) : someNear (points.map some) = some false := by
  induction points with
  | nil => rfl
  | cons q rest ih =>
    simp only [List.map_cons, someNear]
    rw [if_neg (not_le.mpr (h q (List.mem_cons_self _ _)))]
    exact ih (fun p hp => h p (List.mem_cons_of_mem _ hp))

theorem reduceOption_map_some {α : Type} (l : List α) : (l.map some).reduceOption = l := by
  induction l with
  | nil => rfl
  | cons a l ih => simp [List.reduceOption_cons_of_some, ih]

/-- The method `calculateNormal` keeps the vertex indices and the colour of the
face. -/
theorem Face.calculateNormal_keeps (sqrt : K → K) (f : Face K)
    (vertices : List (Point3D K)) (n : Point3D K) (f1 : Face K)
    (h : f.calculateNormal sqrt vertices = some (n, f1)) :
    f1.vertexIndices = f.vertexIndices ∧ f1.color = f.color := by
  unfold Face.calculateNormal at h
  split_ifs at h
  · simp only [Option.some.injEq, Prod.mk.injEq] at h
    rw [← h.2]
    exact ⟨rfl, rfl⟩
  · split at h
    · split at h
      · split at h
        · exact absurd h (by simp)
        · simp only [Option.some.injEq, Prod.mk.injEq] at h
          rw [← h.2]
          exact ⟨rfl, rfl⟩
      · exact absurd h (by simp)
    · exact absurd h (by simp)

/-- The method `isFaceVisible` keeps the vertex indices and the colour of the
face. -/
theorem isFaceVisible_keeps (sqrt sin cos : K → K) (v : Viewer K) (face : Face K)
    (tv : List (Point3D K)) (b : Bool) (face1 : Face K)
    (h : isFaceVisible sqrt sin cos v face tv = some (b, face1)) :
    face1.vertexIndices = face.vertexIndices ∧ face1.color = face.color := by
  unfold isFaceVisible at h
  split_ifs at h
  · simp only [Option.some.injEq, Prod.mk.injEq] at h
    rw [← h.2]
    exact ⟨rfl, rfl⟩
  · split at h
    · exact absurd h (by simp)
    · rename_i n f1 hc
      simp only [Option.some.injEq, Prod.mk.injEq] at h
      rw [← h.2]
      exact Face.calculateNormal_keeps sqrt face tv n f1 hc

/-- C4: near-plane reject in the face loop of `render`, with culling enabled or
not.  If a projected vertex of the face has depth `≤ 0.1`, the loop body does
not reach `drawFace`: whenever it completes, the viewer (canvas and depth
buffer) is unchanged, and it does complete with the viewer unchanged when
`isFaceVisible` returns and all projected vertices of the face exist.  If the
face is visible and all its projected vertices have depth `> 0.1`, the result
is that of `drawFace` on these points with the colour of the face. -/
theorem render_near_plane_reject (api : CanvasPaths K) (sqrt sin cos : K → K)
    (v : Viewer K) (tv : List (Point3D K)) (pv : List (ProjectedPoint K))
    (face : Face K) :
    ((∃ idx ∈ face.vertexIndices, ∃ p, pv[idx]? = some p ∧ p.z ≤ 0.1) →
      (∀ r, renderFace api sqrt sin cos v tv pv face = some r → r.1 = v) ∧
      (∀ (b : Bool) (face1 : Face K) (points : List (ProjectedPoint K)),
        isFaceVisible sqrt sin cos v face tv = some (b, face1) →
        face.vertexIndices.map (fun idx => pv[idx]?) = points.map some →
        renderFace api sqrt sin cos v tv pv face = some (v, face1))) ∧
    (∀ (face1 : Face K) (points : List (ProjectedPoint K)),
      isFaceVisible sqrt sin cos v face tv = some (true, face1) →
      face.vertexIndices.map (fun idx => pv[idx]?) = points.map some →
      (∀ p ∈ points, p.z > 0.1) →
      renderFace api sqrt sin cos v tv pv face
        = some (drawFace api v face1 points face1.color, face1)) := by
  constructor
  · rintro ⟨idx, hidx, p, hp, hz⟩
    constructor
    · intro r hr
      unfold renderFace at hr
      split at hr
      · exact absurd hr (by simp)
      · simp only [Option.some.injEq] at hr
        rw [← hr]
      · rename_i face1 hvis
        have hk := (isFaceVisible_keeps sqrt sin cos v face tv true face1 hvis).1
        simp only [] at hr
        split at hr
        · exact absurd hr (by simp)
        · simp only [Option.some.injEq] at hr
          rw [← hr]
        · rename_i hnear
          exfalso
          refine someNear_ne_false _ ⟨p, ?_, hz⟩ hnear
          rw [hk, List.mem_map]
          exact ⟨idx, hidx, hp⟩
    · intro b face1 points hvis hpts
      have hk := (isFaceVisible_keeps sqrt sin cos v face tv b face1 hvis).1
      unfold renderFace
      rw [hvis]
      cases b with
      | false => rfl
      | true =>
        simp only [hk, hpts]
        have hex : ∃ q ∈ points, q.z ≤ 0.1 := by
          have hm : some p ∈ points.map some := by
            rw [← hpts, List.mem_map]
            exact ⟨idx, hidx, hp⟩
          rw [List.mem_map] at hm
          obtain ⟨q, hq, hqe⟩ := hm
          cases hqe
          exact ⟨p, hq, hz⟩
        rw [someNear_true points hex]
  · intro face1 points hvis hpts hfar
    have hk := (isFaceVisible_keeps sqrt sin cos v face tv true face1 hvis).1
    unfold renderFace
    rw [hvis]
    simp only [hk, hpts]
    rw [someNear_false points hfar, reduceOption_map_some]

end NearPlane

/-! ## The built-in cube under the default camera -/

theorem Real.sqrt_sixteen : Real.sqrt 16 = 4 := by
  rw [show (16 : ℝ) = 4 ^ 2 by norm_num, Real.sqrt_sq (by norm_num)]

/-- With zero rotation and position `(0,0,0)` the transformed vertices of the
cube are its vertices. -/
theorem cube_transformVertices (W H : Nat) (pixels : Int → Int → String) (zb : List ℝ)
    (hsl : Nat → String) :
    transformVertices Real.sin Real.cos (Viewer.default W H pixels zb) (cubeModel hsl)
      = cubeVertices := by
  simp [transformVertices, rotatePoint, cubeModel, Model3D.new, cubeVertices, Viewer.default]

/-- The default camera is at `(0, 0, 5)`. -/
theorem default_cameraPosition (W H : Nat) (pixels : Int → Int → String) (zb : List ℝ) :
    getCameraPosition Real.sin Real.cos (Viewer.default W H pixels zb) = ⟨0, 0, 5⟩ := by
  simp [getCameraPosition, Viewer.default]

/-- The six faces of the cube model. -/
theorem cube_faces (hsl : Nat → String) :
    (cubeModel hsl : Model3D ℝ).faces
      = [Face.new [0, 3, 2, 1] (hsl 0), Face.new [4, 5, 6, 7] (hsl 1),
         Face.new [0, 1, 5, 4] (hsl 2), Face.new [2, 3, 7, 6] (hsl 3),
         Face.new [0, 4, 7, 3] (hsl 4), Face.new [1, 2, 6, 5] (hsl 5)] := rfl

/-- The normal and the centre that `calculateNormal` computes for the six
faces of the cube. -/
theorem cube_calculateNormal (c : String) :
    (Face.new [0, 3, 2, 1] c : Face ℝ).calculateNormal Real.sqrt cubeVertices
      = some (⟨0, 0, -1⟩, ⟨[0, 3, 2, 1], c, ⟨0, 0, -1⟩, ⟨0, 0, -1⟩⟩) ∧
    (Face.new [4, 5, 6, 7] c : Face ℝ).calculateNormal Real.sqrt cubeVertices
      = some (⟨0, 0, 1⟩, ⟨[4, 5, 6, 7], c, ⟨0, 0, 1⟩, ⟨0, 0, 1⟩⟩) ∧
    (Face.new [0, 1, 5, 4] c : Face ℝ).calculateNormal Real.sqrt cubeVertices
      = some (⟨0, -1, 0⟩, ⟨[0, 1, 5, 4], c, ⟨0, -1, 0⟩, ⟨0, -1, 0⟩⟩) ∧
    (Face.new [2, 3, 7, 6] c : Face ℝ).calculateNormal Real.sqrt cubeVertices
      = some (⟨0, 1, 0⟩, ⟨[2, 3, 7, 6], c, ⟨0, 1, 0⟩, ⟨0, 1, 0⟩⟩) ∧
    (Face.new [0, 4, 7, 3] c : Face ℝ).calculateNormal Real.sqrt cubeVertices
      = some (⟨-1, 0, 0⟩, ⟨[0, 4, 7, 3], c, ⟨-1, 0, 0⟩, ⟨-1, 0, 0⟩⟩) ∧
    (Face.new [1, 2, 6, 5] c : Face ℝ).calculateNormal Real.sqrt cubeVertices
      = some (⟨1, 0, 0⟩, ⟨[1, 2, 6, 5], c, ⟨1, 0, 0⟩, ⟨1, 0, 0⟩⟩) := by
  refine ⟨?_, ?_, ?_, ?_, ?_, ?_⟩ <;>
    · simp [Face.calculateNormal, Face.new, cubeVertices, Face.sumVertices,
        Point3D.normalize, Point3D.length, Point3D.cross, Point3D.subtract]
      norm_num [Real.sqrt_sixteen]

/-- The answers of `isFaceVisible` for the six faces of the cube under the camera
of the constructor: only the front face `[4, 5, 6, 7]` is visible. -/
theorem cube_isFaceVisible (W H : Nat) (pixels : Int → Int → String) (zb : List ℝ)
    (c : String) :
    isFaceVisible Real.sqrt Real.sin Real.cos (Viewer.default W H pixels zb)
        (Face.new [0, 3, 2, 1] c) cubeVertices
      = some (false, ⟨[0, 3, 2, 1], c, ⟨0, 0, -1⟩, ⟨0, 0, -1⟩⟩) ∧
    isFaceVisible Real.sqrt Real.sin Real.cos (Viewer.default W H pixels zb)
        (Face.new [4, 5, 6, 7] c) cubeVertices
      = some (true, ⟨[4, 5, 6, 7], c, ⟨0, 0, 1⟩, ⟨0, 0, 1⟩⟩) ∧
    isFaceVisible Real.sqrt Real.sin Real.cos (Viewer.default W H pixels zb)
        (Face.new [0, 1, 5, 4] c) cubeVertices
      = some (false, ⟨[0, 1, 5, 4], c, ⟨0, -1, 0⟩, ⟨0, -1, 0⟩⟩) ∧
    isFaceVisible Real.sqrt Real.sin Real.cos (Viewer.default W H pixels zb)
        (Face.new [2, 3, 7, 6] c) cubeVertices
      = some (false, ⟨[2, 3, 7, 6], c, ⟨0, 1, 0⟩, ⟨0, 1, 0⟩⟩) ∧
    isFaceVisible Real.sqrt Real.sin Real.cos (Viewer.default W H pixels zb)
        (Face.new [0, 4, 7, 3] c) cubeVertices
      = some (false, ⟨[0, 4, 7, 3], c, ⟨-1, 0, 0⟩, ⟨-1, 0, 0⟩⟩) ∧
    isFaceVisible Real.sqrt Real.sin Real.cos (Viewer.default W H pixels zb)
        (Face.new [1, 2, 6, 5] c) cubeVertices
      = some (false, ⟨[1, 2, 6, 5], c, ⟨1, 0, 0⟩, ⟨1, 0, 0⟩⟩) := by
  have hn := cube_calculateNormal c
  have hcull : (Viewer.default W H pixels zb : Viewer ℝ).backfaceCulling = true := rfl
  refine ⟨?_, ?_, ?_, ?_, ?_, ?_⟩
  · rw [isFaceVisible_of_calculateNormal _ hcull _ _ _ _ hn.1, default_cameraPosition]
    norm_num [Point3D.dot, Point3D.subtract]
  · rw [isFaceVisible_of_calculateNormal _ hcull _ _ _ _ hn.2.1, default_cameraPosition]
    norm_num [Point3D.dot, Point3D.subtract]
  · rw [isFaceVisible_of_calculateNormal _ hcull _ _ _ _ hn.2.2.1, default_cameraPosition]
    norm_num [Point3D.dot, Point3D.subtract]
  · rw [isFaceVisible_of_calculateNormal _ hcull _ _ _ _ hn.2.2.2.1, default_cameraPosition]
    norm_num [Point3D.dot, Point3D.subtract]
  · rw [isFaceVisible_of_calculateNormal _ hcull _ _ _ _ hn.2.2.2.2.1,
      default_cameraPosition]
    norm_num [Point3D.dot, Point3D.subtract]
  · rw [isFaceVisible_of_calculateNormal _ hcull _ _ _ _ hn.2.2.2.2.2,
      default_cameraPosition]
    norm_num [Point3D.dot, Point3D.subtract]

/-- The guard `reachesDrawFace` says when the face loop body of `render` calls
`drawFace`: when it holds the result is that of `drawFace` on the projected
points of the face, and when it fails a completed body leaves the viewer. -/
theorem renderFace_reachesDrawFace {K : Type} [LinearOrderedField K] [FloorRing K]
    (api : CanvasPaths K) (sqrt sin cos : K → K) (v : Viewer K) (tv : List (Point3D K))
    (pv : List (ProjectedPoint K)) (face : Face K) :
    (reachesDrawFace sqrt sin cos v tv pv face = true →
      ∃ face1, isFaceVisible sqrt sin cos v face tv = some (true, face1) ∧
        renderFace api sqrt sin cos v tv pv face
          = some (drawFace api v face1
              (face1.vertexIndices.map (fun idx => pv[idx]?)).reduceOption face1.color,
              face1)) ∧
    (reachesDrawFace sqrt sin cos v tv pv face = false →
      ∀ r, renderFace api sqrt sin cos v tv pv face = some r → r.1 = v) := by
  unfold reachesDrawFace renderFace
  cases hvis : isFaceVisible sqrt sin cos v face tv with
  | none => simp
  | some r =>
    obtain ⟨b, face1⟩ := r
    cases b with
    | false => simp
    | true =>
      cases hnear : someNear (face1.vertexIndices.map (fun idx => pv[idx]?)) with
      | none => simp [hnear]
      | some nb =>
        cases nb with
        | false => simp [hnear]
        | true => simp [hnear]

/-- Which faces of the cube pass `isFaceVisible` under the default camera. -/
theorem cube_passesVisibility (W H : Nat) (pixels : Int → Int → String) (zb : List ℝ)
    (c : String) :
    passesVisibility Real.sqrt Real.sin Real.cos (Viewer.default W H pixels zb)
      cubeVertices (Face.new [0, 3, 2, 1] c) = false ∧
    passesVisibility Real.sqrt Real.sin Real.cos (Viewer.default W H pixels zb)
      cubeVertices (Face.new [4, 5, 6, 7] c) = true ∧
    passesVisibility Real.sqrt Real.sin Real.cos (Viewer.default W H pixels zb)
      cubeVertices (Face.new [0, 1, 5, 4] c) = false ∧
    passesVisibility Real.sqrt Real.sin Real.cos (Viewer.default W H pixels zb)
      cubeVertices (Face.new [2, 3, 7, 6] c) = false ∧
    passesVisibility Real.sqrt Real.sin Real.cos (Viewer.default W H pixels zb)
      cubeVertices (Face.new [0, 4, 7, 3] c) = false ∧
    passesVisibility Real.sqrt Real.sin Real.cos (Viewer.default W H pixels zb)
      cubeVertices (Face.new [1, 2, 6, 5] c) = false := by
  have hv := cube_isFaceVisible W H pixels zb c
  unfold passesVisibility
  rw [hv.1, hv.2.1, hv.2.2.1, hv.2.2.2.1, hv.2.2.2.2.1, hv.2.2.2.2.2]
  simp

/-- No face of the cube reaches `drawFace` under the default camera: the
projected depth of every vertex is its `z` minus 5. -/
theorem cube_reachesDrawFace (W H : Nat) (pixels : Int → Int → String) (zb : List ℝ)
    (c : String) :
    reachesDrawFace Real.sqrt Real.sin Real.cos (Viewer.default W H pixels zb)
      cubeVertices (cubeVertices.map
        (fun p => projectPoint Real.sin Real.cos (Viewer.default W H pixels zb) p))
      (Face.new [0, 3, 2, 1] c) = false ∧
    reachesDrawFace Real.sqrt Real.sin Real.cos (Viewer.default W H pixels zb)
      cubeVertices (cubeVertices.map
        (fun p => projectPoint Real.sin Real.cos (Viewer.default W H pixels zb) p))
      (Face.new [4, 5, 6, 7] c) = false ∧
    reachesDrawFace Real.sqrt Real.sin Real.cos (Viewer.default W H pixels zb)
      cubeVertices (cubeVertices.map
        (fun p => projectPoint Real.sin Real.cos (Viewer.default W H pixels zb) p))
      (Face.new [0, 1, 5, 4] c) = false ∧
    reachesDrawFace Real.sqrt Real.sin Real.cos (Viewer.default W H pixels zb)
      cubeVertices (cubeVertices.map
        (fun p => projectPoint Real.sin Real.cos (Viewer.default W H pixels zb) p))
      (Face.new [2, 3, 7, 6] c) = false ∧
    reachesDrawFace Real.sqrt Real.sin Real.cos (Viewer.default W H pixels zb)
      cubeVertices (cubeVertices.map
        (fun p => projectPoint Real.sin Real.cos (Viewer.default W H pixels zb) p))
      (Face.new [0, 4, 7, 3] c) = false ∧
    reachesDrawFace Real.sqrt Real.sin Real.cos (Viewer.default W H pixels zb)
      cubeVertices (cubeVertices.map
        (fun p => projectPoint Real.sin Real.cos (Viewer.default W H pixels zb) p))
      (Face.new [1, 2, 6, 5] c) = false := by
  have hv := cube_isFaceVisible W H pixels zb c
  unfold reachesDrawFace
  rw [hv.1, hv.2.1, hv.2.2.1, hv.2.2.2.1, hv.2.2.2.2.1, hv.2.2.2.2.2]
  refine ⟨rfl, ?_, rfl, rfl, rfl, rfl⟩
  simp only [cubeVertices, List.map_cons, List.map_nil, List.getElem?_cons_succ,
    List.getElem?_cons_zero, someNear, projectPoint, getCameraPosition, Viewer.default,
    Real.cos_zero, Real.sin_zero]
  norm_num

/-- The face loop body of `render` on the six faces of the cube under the camera
of the constructor: every face leaves the viewer as it is. -/
theorem cube_renderFace (api : CanvasPaths ℝ) (W H : Nat) (pixels : Int → Int → String)
    (zb : List ℝ) (c : String) :
    renderFace api Real.sqrt Real.sin Real.cos (Viewer.default W H pixels zb) cubeVertices
        (cubeVertices.map
          (fun p => projectPoint Real.sin Real.cos (Viewer.default W H pixels zb) p))
        (Face.new [0, 3, 2, 1] c)
      = some (Viewer.default W H pixels zb, ⟨[0, 3, 2, 1], c, ⟨0, 0, -1⟩, ⟨0, 0, -1⟩⟩) ∧
    renderFace api Real.sqrt Real.sin Real.cos (Viewer.default W H pixels zb) cubeVertices
        (cubeVertices.map
          (fun p => projectPoint Real.sin Real.cos (Viewer.default W H pixels zb) p))
        (Face.new [4, 5, 6, 7] c)
      = some (Viewer.default W H pixels zb, ⟨[4, 5, 6, 7], c, ⟨0, 0, 1⟩, ⟨0, 0, 1⟩⟩) ∧
    renderFace api Real.sqrt Real.sin Real.cos (Viewer.default W H pixels zb) cubeVertices
        (cubeVertices.map
          (fun p => projectPoint Real.sin Real.cos (Viewer.default W H pixels zb) p))
        (Face.new [0, 1, 5, 4] c)
      = some (Viewer.default W H pixels zb, ⟨[0, 1, 5, 4], c, ⟨0, -1, 0⟩, ⟨0, -1, 0⟩⟩) ∧
    renderFace api Real.sqrt Real.sin Real.cos (Viewer.default W H pixels zb) cubeVertices
        (cubeVertices.map
          (fun p => projectPoint Real.sin Real.cos (Viewer.default W H pixels zb) p))
        (Face.new [2, 3, 7, 6] c)
      = some (Viewer.default W H pixels zb, ⟨[2, 3, 7, 6], c, ⟨0, 1, 0⟩, ⟨0, 1, 0⟩⟩) ∧
    renderFace api Real.sqrt Real.sin Real.cos (Viewer.default W H pixels zb) cubeVertices
        (cubeVertices.map
          (fun p => projectPoint Real.sin Real.cos (Viewer.default W H pixels zb) p))
        (Face.new [0, 4, 7, 3] c)
      = some (Viewer.default W H pixels zb, ⟨[0, 4, 7, 3], c, ⟨-1, 0, 0⟩, ⟨-1, 0, 0⟩⟩) ∧
    renderFace api Real.sqrt Real.sin Real.cos (Viewer.default W H pixels zb) cubeVertices
        (cubeVertices.map
          (fun p => projectPoint Real.sin Real.cos (Viewer.default W H pixels zb) p))
        (Face.new [1, 2, 6, 5] c)
      = some (Viewer.default W H pixels zb, ⟨[1, 2, 6, 5], c, ⟨1, 0, 0⟩, ⟨1, 0, 0⟩⟩) := by
  have hv := cube_isFaceVisible W H pixels zb c
  unfold renderFace
  rw [hv.1, hv.2.1, hv.2.2.1, hv.2.2.2.1, hv.2.2.2.2.1, hv.2.2.2.2.2]
  refine ⟨rfl, ?_, rfl, rfl, rfl, rfl⟩
  simp only [cubeVertices, List.map_cons, List.map_nil, List.getElem?_cons_succ,
    List.getElem?_cons_zero, someNear, projectPoint, getCameraPosition, Viewer.default,
    Real.cos_zero, Real.sin_zero]
  norm_num

/-- One frame of `render` of the cube from a viewer as the constructor leaves
it draws no face: the canvas holds the background colour and the depth buffer
is as `clearZBuffer` leaves it. -/
theorem cube_render_draws_nothing (api : CanvasPaths ℝ) (W H : Nat)
    (pixels : Int → Int → String) (zb : List ℝ) (hsl : Nat → String) :
    (render api Real.sqrt Real.sin Real.cos (Viewer.default W H pixels zb)
        [cubeModel hsl]).map Prod.fst
      = some (Viewer.default W H
          (fun px py => if 0 ≤ px ∧ px < (W : Int) ∧ 0 ≤ py ∧ py < (H : Int) then "#1a1a2e"
            else pixels px py)
          (List.replicate zb.length MAX_VALUE)) := by
  have hr := fun c => cube_renderFace api W H
    (fun px py => if 0 ≤ px ∧ px < (W : Int) ∧ 0 ≤ py ∧ py < (H : Int) then "#1a1a2e"
      else pixels px py)
    (List.replicate zb.length MAX_VALUE) c
  have ht := cube_transformVertices W H
    (fun px py => if 0 ≤ px ∧ px < (W : Int) ∧ 0 ≤ py ∧ py < (H : Int) then "#1a1a2e"
      else pixels px py)
    (List.replicate zb.length MAX_VALUE) hsl
  show (renderModels api Real.sqrt Real.sin Real.cos [cubeModel hsl]
    (Viewer.default W H
      (fun px py => if 0 ≤ px ∧ px < (W : Int) ∧ 0 ≤ py ∧ py < (H : Int) then "#1a1a2e"
        else pixels px py)
      (List.replicate zb.length MAX_VALUE)) []).map Prod.fst = _
  unfold renderModels renderModel
  simp only [ht, cube_faces, renderFaces, (hr _).1, (hr _).2.1, (hr _).2.2.1,
    (hr _).2.2.2.1, (hr _).2.2.2.2.1, (hr _).2.2.2.2.2, renderModels, Option.map_some']

/-! ## Claim on the end-to-end frame of the cube -/

/-- C1, as stated, fails: for the built-in cube with zero rotation,
orthographic projection, culling enabled and the default camera, exactly one
face passes `isFaceVisible` and no face reaches `drawFace`; so it is not the
case that exactly 3 faces pass the two tests and reach `drawFace`, and the
frame of `render` leaves the canvas with the background colour alone. -/
theorem cube_default_frame_not_three_faces :
    (render samplePaths Real.sqrt Real.sin Real.cos (sampleViewer : Viewer ℝ)
        [cubeModel sampleHsl]).map (fun r => (r.1.pixels, r.1.zBuffer))
      = some (fun _ _ => "#1a1a2e", List.replicate 12 MAX_VALUE) ∧
    List.countP
        (passesVisibility Real.sqrt Real.sin Real.cos (sampleViewer : Viewer ℝ)
          (transformVertices Real.sin Real.cos sampleViewer (cubeModel sampleHsl)))
        (cubeModel sampleHsl : Model3D ℝ).faces = 1 ∧
    List.countP
        (reachesDrawFace Real.sqrt Real.sin Real.cos (sampleViewer : Viewer ℝ)
          (transformVertices Real.sin Real.cos sampleViewer (cubeModel sampleHsl))
          ((transformVertices Real.sin Real.cos sampleViewer (cubeModel sampleHsl)).map
            (fun p => projectPoint Real.sin Real.cos sampleViewer p)))
        (cubeModel sampleHsl : Model3D ℝ).faces = 0 ∧
    ¬ (List.countP
        (reachesDrawFace Real.sqrt Real.sin Real.cos (sampleViewer : Viewer ℝ)
          (transformVertices Real.sin Real.cos sampleViewer (cubeModel sampleHsl))
          ((transformVertices Real.sin Real.cos sampleViewer (cubeModel sampleHsl)).map
            (fun p => projectPoint Real.sin Real.cos sampleViewer p)))
        (cubeModel sampleHsl : Model3D ℝ).faces = 3) := by
  have ht : transformVertices Real.sin Real.cos (sampleViewer : Viewer ℝ)
      (cubeModel sampleHsl) = cubeVertices := cube_transformVertices _ _ _ _ _
  have hp := fun c => cube_passesVisibility 4 3 (fun _ _ => "#1a1a2e")
    (List.replicate 12 MAX_VALUE) c
  have hr := fun c => cube_reachesDrawFace 4 3 (fun _ _ => "#1a1a2e")
    (List.replicate 12 MAX_VALUE) c
  rw [ht, cube_faces]
  unfold sampleViewer
  have h1 : List.countP
      (passesVisibility Real.sqrt Real.sin Real.cos
        (Viewer.default 4 3 (fun _ _ => "#1a1a2e") (List.replicate 12 MAX_VALUE))
        cubeVertices)
      [Face.new [0, 3, 2, 1] (sampleHsl 0), Face.new [4, 5, 6, 7] (sampleHsl 1),
       Face.new [0, 1, 5, 4] (sampleHsl 2), Face.new [2, 3, 7, 6] (sampleHsl 3),
       Face.new [0, 4, 7, 3] (sampleHsl 4), Face.new [1, 2, 6, 5] (sampleHsl 5)] = 1 := by
    simp only [List.countP_cons, List.countP_nil, (hp _).1, (hp _).2.1, (hp _).2.2.1,
      (hp _).2.2.2.1, (hp _).2.2.2.2.1, (hp _).2.2.2.2.2]
    rfl
  have h2 : List.countP
      (reachesDrawFace Real.sqrt Real.sin Real.cos
        (Viewer.default 4 3 (fun _ _ => "#1a1a2e") (List.replicate 12 MAX_VALUE))
        cubeVertices
        (cubeVertices.map (fun p => projectPoint Real.sin Real.cos
          (Viewer.default 4 3 (fun _ _ => "#1a1a2e") (List.replicate 12 MAX_VALUE)) p)))
      [Face.new [0, 3, 2, 1] (sampleHsl 0), Face.new [4, 5, 6, 7] (sampleHsl 1),
       Face.new [0, 1, 5, 4] (sampleHsl 2), Face.new [2, 3, 7, 6] (sampleHsl 3),
       Face.new [0, 4, 7, 3] (sampleHsl 4), Face.new [1, 2, 6, 5] (sampleHsl 5)] = 0 := by
    simp only [List.countP_cons, List.countP_nil, (hr _).1, (hr _).2.1, (hr _).2.2.1,
      (hr _).2.2.2.1, (hr _).2.2.2.2.1, (hr _).2.2.2.2.2]
    rfl
  have h0 : (render samplePaths Real.sqrt Real.sin Real.cos
      (Viewer.default 4 3 (fun _ _ => "#1a1a2e") (List.replicate 12 (MAX_VALUE : ℝ)))
      [cubeModel sampleHsl]).map (fun r => (r.1.pixels, r.1.zBuffer))
      = some (fun _ _ => "#1a1a2e", List.replicate 12 MAX_VALUE) := by
    have h := cube_render_draws_nothing samplePaths 4 3 (fun _ _ => "#1a1a2e")
      (List.replicate 12 MAX_VALUE) sampleHsl
    cases hres : render samplePaths Real.sqrt Real.sin Real.cos
        (Viewer.default 4 3 (fun _ _ => "#1a1a2e") (List.replicate 12 (MAX_VALUE : ℝ)))
        [cubeModel sampleHsl] with
    | none =>
      rw [hres] at h
      exact absurd h (by simp)
    | some r =>
      rw [hres] at h
      simp only [Option.map_some', Option.some.injEq] at h ⊢
      rw [h]
      simp [Viewer.default]
  refine ⟨h0, h1, h2, ?_⟩
  rw [h2]
  decide

/-- C1, amended: for the built-in cube with zero rotation, culling enabled and
the default camera (distance 5, height 0, angle 0), on any canvas, exactly 1
of the 6 faces passes `isFaceVisible`; the faces that pass are those whose
normal, as `calculateNormal` computes it, has a positive dot product with the
vector from the face centre to the camera, and that is the front face
`[4, 5, 6, 7]` alone. -/
theorem cube_default_one_visible_face (W H : Nat) (pixels : Int → Int → String)
    (zb : List ℝ) (hsl : Nat → String) :
    List.countP
        (passesVisibility Real.sqrt Real.sin Real.cos (Viewer.default W H pixels zb)
          (transformVertices Real.sin Real.cos (Viewer.default W H pixels zb)
            (cubeModel hsl)))
        (cubeModel hsl : Model3D ℝ).faces = 1 ∧
    ∀ f ∈ (cubeModel hsl : Model3D ℝ).faces,
      ∃ n f1,
        f.calculateNormal Real.sqrt
          (transformVertices Real.sin Real.cos (Viewer.default W H pixels zb)
            (cubeModel hsl)) = some (n, f1) ∧
        (passesVisibility Real.sqrt Real.sin Real.cos (Viewer.default W H pixels zb)
            (transformVertices Real.sin Real.cos (Viewer.default W H pixels zb)
              (cubeModel hsl)) f = true ↔
          n.dot ((getCameraPosition Real.sin Real.cos
            (Viewer.default W H pixels zb)).subtract f1.center) > 0) ∧
        (passesVisibility Real.sqrt Real.sin Real.cos (Viewer.default W H pixels zb)
            (transformVertices Real.sin Real.cos (Viewer.default W H pixels zb)
              (cubeModel hsl)) f = true ↔
          f.vertexIndices = [4, 5, 6, 7]) := by
  have hp := fun c => cube_passesVisibility W H pixels zb c
  have hn := fun c => cube_calculateNormal c
  rw [cube_transformVertices, cube_faces, default_cameraPosition]
  constructor
  · simp only [List.countP_cons, List.countP_nil, (hp _).1, (hp _).2.1, (hp _).2.2.1,
      (hp _).2.2.2.1, (hp _).2.2.2.2.1, (hp _).2.2.2.2.2]
    rfl
  · intro f hf
    simp only [List.mem_cons, List.mem_singleton, List.not_mem_nil, or_false] at hf
    rcases hf with rfl | rfl | rfl | rfl | rfl | rfl
    · refine ⟨_, _, (hn _).1, ?_, ?_⟩
      · rw [(hp _).1]; norm_num [Point3D.dot, Point3D.subtract]
      · rw [(hp _).1]; simp [Face.new]
    · refine ⟨_, _, (hn _).2.1, ?_, ?_⟩
      · rw [(hp _).2.1]; norm_num [Point3D.dot, Point3D.subtract]
      · rw [(hp _).2.1]; simp [Face.new]
    · refine ⟨_, _, (hn _).2.2.1, ?_, ?_⟩
      · rw [(hp _).2.2.1]; norm_num [Point3D.dot, Point3D.subtract]
      · rw [(hp _).2.2.1]; simp [Face.new]
    · refine ⟨_, _, (hn _).2.2.2.1, ?_, ?_⟩
      · rw [(hp _).2.2.2.1]; norm_num [Point3D.dot, Point3D.subtract]
      · rw [(hp _).2.2.2.1]; simp [Face.new]
    · refine ⟨_, _, (hn _).2.2.2.2.1, ?_, ?_⟩
      · rw [(hp _).2.2.2.2.1]; norm_num [Point3D.dot, Point3D.subtract]
      · rw [(hp _).2.2.2.2.1]; simp [Face.new]
    · refine ⟨_, _, (hn _).2.2.2.2.2, ?_, ?_⟩
      · rw [(hp _).2.2.2.2.2]; norm_num [Point3D.dot, Point3D.subtract]
      · rw [(hp _).2.2.2.2.2]; simp [Face.new]

/-! ## Instances of the claims on concrete inputs -/

/-- The front face of the cube seen from the default camera, which is at its
centre plus 4 times its normal, is visible; the back face, whose centre minus
6 times its normal is the camera position, is culled. -/
theorem isFaceVisible_along_normal_witness :
    isFaceVisible Real.sqrt Real.sin Real.cos (sampleViewer : Viewer ℝ)
        (Face.new [4, 5, 6, 7] "front") cubeVertices
      = some (true, ⟨[4, 5, 6, 7], "front", ⟨0, 0, 1⟩, ⟨0, 0, 1⟩⟩) ∧
    isFaceVisible Real.sqrt Real.sin Real.cos (sampleViewer : Viewer ℝ)
        (Face.new [0, 3, 2, 1] "back") cubeVertices
      = some (false, ⟨[0, 3, 2, 1], "back", ⟨0, 0, -1⟩, ⟨0, 0, -1⟩⟩) := by
  constructor
  · refine (isFaceVisible_along_normal (sampleViewer : Viewer ℝ) rfl
      (Face.new [4, 5, 6, 7] "front") cubeVertices 4 5 6 [7] rfl
      ⟨-1, -1, 1⟩ ⟨1, -1, 1⟩ ⟨1, 1, 1⟩ rfl rfl rfl ?_ ⟨0, 0, 1⟩
      ⟨[4, 5, 6, 7], "front", ⟨0, 0, 1⟩, ⟨0, 0, 1⟩⟩ (cube_calculateNormal "front").2.1
      4 (by norm_num)).1 ?_
    · intro h
      have hz := congrArg Point3D.z h
      norm_num [Point3D.cross, Point3D.subtract] at hz
    · unfold sampleViewer
      rw [default_cameraPosition]
      norm_num
  · refine (isFaceVisible_along_normal (sampleViewer : Viewer ℝ) rfl
      (Face.new [0, 3, 2, 1] "back") cubeVertices 0 3 2 [1] rfl
      ⟨-1, -1, -1⟩ ⟨-1, 1, -1⟩ ⟨1, 1, -1⟩ rfl rfl rfl ?_ ⟨0, 0, -1⟩
      ⟨[0, 3, 2, 1], "back", ⟨0, 0, -1⟩, ⟨0, 0, -1⟩⟩ (cube_calculateNormal "back").1
      6 (by norm_num)).2 ?_
    · intro h
      have hz := congrArg Point3D.z h
      norm_num [Point3D.cross, Point3D.subtract] at hz
    · unfold sampleViewer
      rw [default_cameraPosition]
      norm_num

/-- Three points on the line `x = y` write nothing. -/
theorem drawTriangle_collinear_unchanged_witness :
    Collinear2D (0 : ℚ) 0 1 1 2 2 ∧
    drawTriangle (sampleViewer : Viewer ℚ) 0 0 1 1 1 2 2 2 3 "red" = sampleViewer :=
  ⟨⟨1, -1, 0, Or.inl one_ne_zero, by norm_num, by norm_num, by norm_num⟩,
   drawTriangle_collinear_unchanged (sampleViewer : Viewer ℚ) 0 0 1 1 1 2 2 2 3 "red"
     ⟨1, -1, 0, Or.inl one_ne_zero, by norm_num, by norm_num, by norm_num⟩⟩

/-- On the cleared 4 by 3 canvas the triangle `(0,0,1) (3,0,2) (0,2,3)` writes
the pixel `(0, 0)`, with the depth 1 of its first vertex, and leaves the pixel
`(3, 2)`, which lies outside it. -/
theorem drawTriangle_postcondition_witness :
    ((drawTriangle (sampleViewer : Viewer ℚ) 0 0 1 3 0 2 0 2 3 "red").pixels 0 0 = "red" ∧
      (drawTriangle (sampleViewer : Viewer ℚ) 0 0 1 3 0 2 0 2 3 "red").zBuffer[0]?
        = some 1) ∧
    ((drawTriangle (sampleViewer : Viewer ℚ) 0 0 1 3 0 2 0 2 3 "red").pixels 3 2
        = "#1a1a2e" ∧
      (drawTriangle (sampleViewer : Viewer ℚ) 0 0 1 3 0 2 0 2 3 "red").zBuffer[11]?
        = some MAX_VALUE) := by
  constructor
  · have h := (drawTriangle_postcondition (sampleViewer : Viewer ℚ) 0 0 1 3 0 2 0 2 3
      "red" 0 0 ⟨by decide, by decide⟩ ⟨by decide, by decide⟩).1
      ⟨by unfold inClampedBox; decide,
       by unfold triDenom; norm_num,
       ⟨by unfold triLambda1 triDenom; norm_num,
        by unfold triLambda2 triDenom; norm_num,
        by unfold triLambda3 triLambda1 triLambda2 triDenom; norm_num⟩,
       ⟨MAX_VALUE, by simp [sampleViewer, Viewer.default],
        by unfold triLambda3 triLambda1 triLambda2 triDenom MAX_VALUE; norm_num⟩,
       by unfold triLambda3 triLambda1 triLambda2 triDenom; norm_num⟩
    have hz : triLambda1 (0 : ℚ) 0 3 0 0 2 0 0 * 1 + triLambda2 (0 : ℚ) 0 3 0 0 2 0 0 * 2
        + triLambda3 (0 : ℚ) 0 3 0 0 2 0 0 * 3 = 1 := by
      unfold triLambda3 triLambda1 triLambda2 triDenom
      norm_num
    have hi : ((0 : Int) * (((sampleViewer : Viewer ℚ).width : Nat) : Int) + 0).toNat = 0 := by
      decide
    simp only [hz, hi] at h
    exact h
  · have h := (drawTriangle_postcondition (sampleViewer : Viewer ℚ) 0 0 1 3 0 2 0 2 3
      "red" 3 2 ⟨by decide, by decide⟩ ⟨by decide, by decide⟩).2.1
      (by
        rintro ⟨_, _, ⟨hl1, _, _⟩, _, _⟩
        revert hl1
        unfold triLambda1 triDenom
        norm_num)
    have hi : ((2 : Int) * (((sampleViewer : Viewer ℚ).width : Nat) : Int) + 3).toNat = 11 := by
      decide
    simp only [hi] at h
    refine ⟨h.1, ?_⟩
    rw [h.2]
    simp [sampleViewer, Viewer.default]

/-- On the cleared 4 by 3 canvas, a red triangle at depth 1 and a blue triangle
at depth 2 with the same screen coordinates give the same canvas and depth
buffer in both orders, and the covered pixel `(0, 0)` ends red. -/
theorem depth_test_order_independent_witness :
    (drawTriangle (drawTriangle (clearZBuffer (sampleViewer : Viewer ℚ))
        0 0 1 3 0 1 0 2 1 "red") 0 0 2 3 0 2 0 2 2 "blue").pixels
      = (drawTriangle (drawTriangle (clearZBuffer (sampleViewer : Viewer ℚ))
        0 0 2 3 0 2 0 2 2 "blue") 0 0 1 3 0 1 0 2 1 "red").pixels ∧
    (drawTriangle (drawTriangle (clearZBuffer (sampleViewer : Viewer ℚ))
        0 0 1 3 0 1 0 2 1 "red") 0 0 2 3 0 2 0 2 2 "blue").zBuffer
      = (drawTriangle (drawTriangle (clearZBuffer (sampleViewer : Viewer ℚ))
        0 0 2 3 0 2 0 2 2 "blue") 0 0 1 3 0 1 0 2 1 "red").zBuffer ∧
    (drawTriangle (drawTriangle (clearZBuffer (sampleViewer : Viewer ℚ))
        0 0 1 3 0 1 0 2 1 "red") 0 0 2 3 0 2 0 2 2 "blue").pixels 0 0 = "red" := by
  have hM : (2 : ℚ) < MAX_VALUE := by
    unfold MAX_VALUE
    norm_num
  have h := depth_test_order_independent (sampleViewer : Viewer ℚ) (by decide)
    0 0 3 0 0 2 1 1 1 2 2 2 "red" "blue"
    ⟨by norm_num, by norm_num, hM⟩ ⟨by norm_num, by norm_num, hM⟩
    ⟨by norm_num, by norm_num, hM⟩
  refine ⟨h.1, h.2.1, (h.2.2 0 0 ?_).1⟩
  refine ⟨by unfold inClampedBox; decide, ?_, ?_, ?_, ?_⟩
  · unfold triDenom; norm_num
  · unfold triLambda1 triDenom; norm_num
  · unfold triLambda2 triDenom; norm_num
  · unfold triLambda3 triLambda1 triLambda2 triDenom; norm_num

/-- Two instances of the near-plane test on the cube.  Under the default
camera the front face is visible but its vertices project to the depth
`1 - 5`, and the face loop body leaves the viewer.  With the camera angle `π`
the camera is at `(0, 0, -5)`, the back face is visible, its vertices project
to the depth 4, and the face loop body is the call of `drawFace` on them. -/
theorem render_near_plane_reject_witness :
    renderFace samplePaths Real.sqrt Real.sin Real.cos (sampleViewer : Viewer ℝ)
        cubeVertices
        (cubeVertices.map (fun p => projectPoint Real.sin Real.cos sampleViewer p))
        (Face.new [4, 5, 6, 7] "front")
      = some (sampleViewer, ⟨[4, 5, 6, 7], "front", ⟨0, 0, 1⟩, ⟨0, 0, 1⟩⟩) ∧
    renderFace samplePaths Real.sqrt Real.sin Real.cos
        ({ (sampleViewer : Viewer ℝ) with camera := ⟨5, 0, Real.pi⟩ }) cubeVertices
        (cubeVertices.map (fun p => projectPoint Real.sin Real.cos
          ({ (sampleViewer : Viewer ℝ) with camera := ⟨5, 0, Real.pi⟩ }) p))
        (Face.new [0, 3, 2, 1] "back")
      = some (drawFace samplePaths
          ({ (sampleViewer : Viewer ℝ) with camera := ⟨5, 0, Real.pi⟩ })
          ⟨[0, 3, 2, 1], "back", ⟨0, 0, -1⟩, ⟨0, 0, -1⟩⟩
          [⟨-80 + 2, 80 + 3 / 2, 4⟩, ⟨-80 + 2, -80 + 3 / 2, 4⟩, ⟨80 + 2, -80 + 3 / 2, 4⟩,
           ⟨80 + 2, 80 + 3 / 2, 4⟩] "back",
          ⟨[0, 3, 2, 1], "back", ⟨0, 0, -1⟩, ⟨0, 0, -1⟩⟩) := by
  constructor
  · refine ((render_near_plane_reject samplePaths Real.sqrt Real.sin Real.cos
      (sampleViewer : Viewer ℝ) cubeVertices
      (cubeVertices.map (fun p => projectPoint Real.sin Real.cos sampleViewer p))
      (Face.new [4, 5, 6, 7] "front")).1 ⟨4, by simp [Face.new], _, rfl, ?_⟩).2 true _
      ([4, 5, 6, 7].map (fun i => projectPoint Real.sin Real.cos sampleViewer
        (cubeVertices.getD i ⟨0, 0, 0⟩)))
      (cube_isFaceVisible 4 3 _ _ "front").2.1 rfl
    simp only [projectPoint, getCameraPosition, sampleViewer, Viewer.default,
      Real.cos_zero, cubeVertices, List.getElem_cons_succ, List.getElem_cons_zero]
    norm_num
  · have hcam : getCameraPosition Real.sin Real.cos
        ({ (sampleViewer : Viewer ℝ) with camera := ⟨5, 0, Real.pi⟩ }) = ⟨0, 0, -5⟩ := by
      simp [getCameraPosition]
    have hvis : isFaceVisible Real.sqrt Real.sin Real.cos
        ({ (sampleViewer : Viewer ℝ) with camera := ⟨5, 0, Real.pi⟩ })
        (Face.new [0, 3, 2, 1] "back") cubeVertices
        = some (true, ⟨[0, 3, 2, 1], "back", ⟨0, 0, -1⟩, ⟨0, 0, -1⟩⟩) := by
      rw [isFaceVisible_of_calculateNormal _ rfl _ _ _ _ (cube_calculateNormal "back").1,
        hcam]
      norm_num [Point3D.dot, Point3D.subtract]
    refine (render_near_plane_reject samplePaths Real.sqrt Real.sin Real.cos
      ({ (sampleViewer : Viewer ℝ) with camera := ⟨5, 0, Real.pi⟩ }) cubeVertices
      (cubeVertices.map (fun p => projectPoint Real.sin Real.cos
        ({ (sampleViewer : Viewer ℝ) with camera := ⟨5, 0, Real.pi⟩ }) p))
      (Face.new [0, 3, 2, 1] "back")).2 _ _ hvis ?_ ?_
    · simp only [Face.new, cubeVertices, List.map_cons, List.map_nil,
        List.getElem?_cons_succ, List.getElem?_cons_zero, projectPoint, getCameraPosition,
        sampleViewer, Viewer.default, Real.cos_pi, Real.sin_pi]
      norm_num
    · intro p hp
      simp only [List.mem_cons, List.mem_singleton, List.not_mem_nil, or_false] at hp
      rcases hp with rfl | rfl | rfl | rfl <;> norm_num

/-! ## Claims on the vector products and the face normal -/

/-- C11: for all vectors `a` and `b`, `cross(a, b)` is orthogonal to both:
`dot(cross(a,b), a) = 0` and `dot(cross(a,b), b) = 0`. -/
theorem cross_orthogonal {K : Type} [LinearOrderedField K] (a b : Point3D K) :
    (a.cross b).dot a = 0 ∧ (a.cross b).dot b = 0 := by
  constructor <;>
    · simp only [Point3D.cross, Point3D.dot]
      ring

/-- The sum loop of `calculateNormal` on valid indices adds the coordinates of
the referenced vertices to the starting sums. -/
theorem Face.sumVertices_eq {K : Type} [LinearOrderedField K]
    (vertices : List (Point3D K)) (idxs : List Nat) (pts : List (Point3D K))
    (h : idxs.map (fun i => vertices[i]?) = pts.map some) (acc : K × K × K) :
    Face.sumVertices vertices idxs acc
      = some (acc.1 + (pts.map (fun p => p.x)).sum,
              acc.2.1 + (pts.map (fun p => p.y)).sum,
              acc.2.2 + (pts.map (fun p => p.z)).sum) := by
  induction idxs generalizing pts acc with
  | nil =>
    cases pts with
    | nil => simp [Face.sumVertices]
    | cons q qs => simp at h
  | cons i rest ih =>
    cases pts with
    | nil => simp at h
    | cons q qs =>
      simp only [List.map_cons, List.cons.injEq] at h
      unfold Face.sumVertices
      rw [h.1]
      simp only []
      rw [ih qs h.2]
      simp only [List.map_cons, List.sum_cons, add_assoc]

/-- Three points on one line have a zero cross product. -/
theorem cross_eq_zero_of_collinear {K : Type} [LinearOrderedField K]
    (v0 v1 v2 : Point3D K) (h : Collinear3D v0 v1 v2) :
    (v1.subtract v0).cross (v2.subtract v0) = ⟨0, 0, 0⟩ := by
  obtain ⟨p, d, t0, t1, t2, rfl, rfl, rfl⟩ := h
  simp only [Point3D.cross, Point3D.subtract]
  congr 1 <;> ring

/-- Valid indices reference a list of vertices. -/
theorem exists_referenced {α : Type} (vertices : List α) (idxs : List Nat)
    (h : ∀ idx ∈ idxs, idx < vertices.length) :
    ∃ pts : List α, idxs.map (fun i => vertices[i]?) = pts.map some := by
  induction idxs with
  | nil => exact ⟨[], rfl⟩
  | cons i rest ih =>
    obtain ⟨pts, hp⟩ := ih (fun idx hidx => h idx (List.mem_cons_of_mem _ hidx))
    have hi : i < vertices.length := h i (List.mem_cons_self _ _)
    refine ⟨vertices[i] :: pts, ?_⟩
    simp only [List.map_cons, hp, List.getElem?_eq_getElem hi]

/-- The vertices that valid indices reference are the ones `filterMap` finds. -/
theorem filterMap_of_referenced {α : Type} (vertices : List α) (idxs : List Nat)
    (pts : List α) (h : idxs.map (fun i => vertices[i]?) = pts.map some) :
    idxs.filterMap (fun i => vertices[i]?) = pts := by
  induction idxs generalizing pts with
  | nil =>
    cases pts with
    | nil => rfl
    | cons q qs => simp at h
  | cons i rest ih =>
    cases pts with
    | nil => simp at h
    | cons q qs =>
      simp only [List.map_cons, List.cons.injEq] at h
      rw [List.filterMap_cons, h.1]
      simp only []
      rw [ih qs h.2]

/-- The result of `calculateNormal` on a face with at least three indices, all
valid: the normalised cross product, cached together with the mean of the
referenced vertices. -/
theorem Face.calculateNormal_of_valid {K : Type} [LinearOrderedField K] (sqrt : K → K)
    (f : Face K) (vertices : List (Point3D K)) (i0 i1 i2 : Nat) (rest : List Nat)
    (hidx : f.vertexIndices = i0 :: i1 :: i2 :: rest) (v0 v1 v2 : Point3D K)
    (h0 : vertices[i0]? = some v0) (h1 : vertices[i1]? = some v1)
    (h2 : vertices[i2]? = some v2) (pts : List (Point3D K))
    (hpts : f.vertexIndices.map (fun i => vertices[i]?) = pts.map some) :
    f.calculateNormal sqrt vertices
      = some (((v1.subtract v0).cross (v2.subtract v0)).normalize sqrt,
          { f with
            normal := ((v1.subtract v0).cross (v2.subtract v0)).normalize sqrt,
            center := meanPoint pts }) := by
  have hlen : pts.length = f.vertexIndices.length := by
    have := congrArg List.length hpts
    simp only [List.length_map] at this
    exact this.symm
  have hsum := Face.sumVertices_eq vertices f.vertexIndices pts hpts (0, 0, 0)
  unfold Face.calculateNormal
  rw [if_neg (by rw [hidx]; simp)]
  rw [hsum]
  simp only [hidx, h0, h1, h2, zero_add, meanPoint, hlen, List.length_cons]

/-- C12: `calculateNormal` returns the face normal by the stated rule.  A face
with fewer than 3 vertex indices gives `(0, 0, 1)`.  A face with at least 3
indices, all valid, gives `normalize(cross(v1 - v0, v2 - v0))` for the vertices
`v0, v1, v2` referenced by its first three indices, which is the zero vector
when these three are collinear. -/
theorem calculateNormal_returns_rule (f : Face ℝ) (vertices : List (Point3D ℝ)) :
    (f.vertexIndices.length < 3 →
      (f.calculateNormal Real.sqrt vertices).map Prod.fst = some ⟨0, 0, 1⟩) ∧
    (∀ (i0 i1 i2 : Nat) (rest : List Nat) (v0 v1 v2 : Point3D ℝ),
      f.vertexIndices = i0 :: i1 :: i2 :: rest →
      (∀ idx ∈ f.vertexIndices, idx < vertices.length) →
      vertices[i0]? = some v0 → vertices[i1]? = some v1 → vertices[i2]? = some v2 →
      (f.calculateNormal Real.sqrt vertices).map Prod.fst
          = some (((v1.subtract v0).cross (v2.subtract v0)).normalize Real.sqrt) ∧
        (Collinear3D v0 v1 v2 →
          (f.calculateNormal Real.sqrt vertices).map Prod.fst = some ⟨0, 0, 0⟩)) := by
  constructor
  · intro hlt
    unfold Face.calculateNormal
    rw [if_pos hlt]
    rfl
  · intro i0 i1 i2 rest v0 v1 v2 hidx hvalid h0 h1 h2
    obtain ⟨pts, hpts⟩ := exists_referenced vertices f.vertexIndices hvalid
    have hc := Face.calculateNormal_of_valid Real.sqrt f vertices i0 i1 i2 rest hidx
      v0 v1 v2 h0 h1 h2 pts hpts
    rw [hc]
    refine ⟨rfl, ?_⟩
    intro hcol
    rw [cross_eq_zero_of_collinear v0 v1 v2 hcol]
    simp [Point3D.normalize, Point3D.length]

/-- C13, as stated, fails for a face with fewer than 3 indices: on the face
with the single index 0 and the vertex list `[(1, 1, 1)]`, `calculateNormal`
returns `(0, 0, 1)` and leaves the face as the constructor made it, so the
cached centre `(0, 0, 0)` is not the mean `(1, 1, 1)` of the referenced
vertices and the cached normal `(0, 0, 0)` is not the returned value. -/
theorem calculateNormal_short_face_not_cached :
    (Face.new [0] "c" : Face ℝ).calculateNormal Real.sqrt [⟨1, 1, 1⟩]
      = some (⟨0, 0, 1⟩, Face.new [0] "c") ∧
    (Face.new [0] "c" : Face ℝ).center ≠ faceCentre [⟨1, 1, 1⟩] [0] ∧
    (Face.new [0] "c" : Face ℝ).normal ≠ ⟨0, 0, 1⟩ := by
  refine ⟨?_, ?_, ?_⟩
  · simp [Face.calculateNormal, Face.new]
  · intro h
    have hx := congrArg Point3D.x h
    simp [Face.new, faceCentre, meanPoint] at hx
  · intro h
    have hz := congrArg Point3D.z h
    simp [Face.new] at hz

/-- C13, amended: for a face with at least 3 vertex indices, all valid in the
vertex list, `calculateNormal` returns, and afterwards the cached centre of the
face is the arithmetic mean of all the vertices the face references and the
cached normal is the value returned; for a face with fewer than 3 indices it
returns `(0, 0, 1)` and leaves both cached fields as they were. -/
theorem calculateNormal_caches_fields {K : Type} [LinearOrderedField K] (sqrt : K → K)
    (f : Face K) (vertices : List (Point3D K)) :
    (3 ≤ f.vertexIndices.length →
      (∀ idx ∈ f.vertexIndices, idx < vertices.length) →
      ∃ n f1, f.calculateNormal sqrt vertices = some (n, f1) ∧
        f1.center = faceCentre vertices f.vertexIndices ∧ f1.normal = n) ∧
    (f.vertexIndices.length < 3 →
      f.calculateNormal sqrt vertices = some (⟨0, 0, 1⟩, f)) := by
  constructor
  · intro hlen hvalid
    obtain ⟨pts, hpts⟩ := exists_referenced vertices f.vertexIndices hvalid
    obtain ⟨i0, i1, i2, rest, hidx⟩ :
        ∃ i0 i1 i2 rest, f.vertexIndices = i0 :: i1 :: i2 :: rest := by
      rcases hf : f.vertexIndices with _ | ⟨a, _ | ⟨b, _ | ⟨c, r⟩⟩⟩
      · rw [hf] at hlen; simp at hlen
      · rw [hf] at hlen; simp at hlen
      · rw [hf] at hlen; simp at hlen
      · exact ⟨a, b, c, r, rfl⟩
    have hi0 : i0 < vertices.length := hvalid i0 (by rw [hidx]; simp)
    have hi1 : i1 < vertices.length := hvalid i1 (by rw [hidx]; simp)
    have hi2 : i2 < vertices.length := hvalid i2 (by rw [hidx]; simp)
    have hc := Face.calculateNormal_of_valid sqrt f vertices i0 i1 i2 rest hidx
      vertices[i0] vertices[i1] vertices[i2] (List.getElem?_eq_getElem hi0)
      (List.getElem?_eq_getElem hi1) (List.getElem?_eq_getElem hi2) pts hpts
    refine ⟨_, _, hc, ?_, rfl⟩
    simp only [faceCentre, filterMap_of_referenced vertices f.vertexIndices pts hpts]
  · intro hlt
    unfold Face.calculateNormal
    rw [if_pos hlt]

/-! ## Claims on the camera and the projection -/

/-- C14: with the camera parameters distance 5, height 0 and angle 0,
`getCameraPosition` returns `(0, 0, 5)`, and for every canvas width and height
the orthographic `projectPoint` of the world point `(0, 0, 0)` has the screen
coordinates `(width / 2, height / 2)`. -/
theorem default_camera_projects_origin_to_centre (v : Viewer ℝ)
    (hcam : v.camera = ⟨5, 0, 0⟩) (hortho : v.isPerspective = false) :
    getCameraPosition Real.sin Real.cos v = ⟨0, 0, 5⟩ ∧
    (projectPoint Real.sin Real.cos v ⟨0, 0, 0⟩).x = (v.width : ℝ) / 2 ∧
    (projectPoint Real.sin Real.cos v ⟨0, 0, 0⟩).y = (v.height : ℝ) / 2 := by
  have hc : getCameraPosition Real.sin Real.cos v = ⟨0, 0, 5⟩ := by
    simp [getCameraPosition, hcam]
  refine ⟨hc, ?_, ?_⟩
  · simp [projectPoint, hc, hortho]
  · simp [projectPoint, hc, hortho]

/-- C15: the depth floor of the perspective projection.  For every world point
and every camera, with `d = point - cameraPosition`, perspective `projectPoint`
uses `scale = 500 / max(d.z, 0.1)`; the divisor is not zero and
`0 < scale ≤ 5000`, so `screenX - width/2` has the sign of `d.x`,
`screenY - height/2` has the opposite sign to `d.y`, and the returned depth is
`d.z`. -/
theorem perspective_depth_floor {K : Type} [LinearOrderedField K] (sin cos : K → K)
    (v : Viewer K) (hpersp : v.isPerspective = true) (point : Point3D K) :
    let d := point.subtract (getCameraPosition sin cos v)
    let scale := (500 : K) / max d.z 0.1
    let p := projectPoint sin cos v point
    max d.z 0.1 ≠ 0 ∧ 0 < scale ∧ scale ≤ 5000 ∧
    p.x = d.x * scale + (v.width : K) / 2 ∧
    p.y = -d.y * scale + (v.height : K) / 2 ∧
    p.z = d.z ∧
    SignType.sign (p.x - (v.width : K) / 2) = SignType.sign d.x ∧
    SignType.sign (p.y - (v.height : K) / 2) = -SignType.sign d.y := by
  intro d scale p
  have hfloor : (0.1 : K) ≤ max d.z 0.1 := le_max_right _ _
  have hpos : (0 : K) < max d.z 0.1 := lt_of_lt_of_le (by norm_num) hfloor
  have hscale : 0 < scale := div_pos (by norm_num) hpos
  have hle : scale ≤ 5000 := by
    show (500 : K) / max d.z 0.1 ≤ 5000
    rw [div_le_iff₀ hpos]
    have : (5000 : K) * 0.1 ≤ 5000 * max d.z 0.1 :=
      mul_le_mul_of_nonneg_left hfloor (by norm_num)
    have e : (5000 : K) * 0.1 = 500 := by norm_num
    rw [e] at this
    exact this
  have hx : p.x = d.x * scale + (v.width : K) / 2 := by
    show (projectPoint sin cos v point).x = _
    simp only [projectPoint, hpersp, if_true]
    rfl
  have hy : p.y = -d.y * scale + (v.height : K) / 2 := by
    show (projectPoint sin cos v point).y = _
    simp only [projectPoint, hpersp, if_true]
    rfl
  have hz : p.z = d.z := by
    show (projectPoint sin cos v point).z = _
    simp only [projectPoint, hpersp, if_true]
    rfl
  refine ⟨ne_of_gt hpos, hscale, hle, hx, hy, hz, ?_, ?_⟩
  · rw [hx, add_sub_cancel_right, sign_mul, sign_pos hscale, mul_one]
  · rw [hy, add_sub_cancel_right, sign_mul, sign_pos hscale, mul_one, Left.sign_neg]

/-- C19: the fixed quad split.  With the depth buffer enabled and wireframe
disabled, `drawFace` on exactly 4 projected points is `drawTriangle(p0,p1,p2)`
followed by `drawTriangle(p0,p2,p3)` with the face colour, and on exactly 3
points it is the single `drawTriangle(p0,p1,p2)`. -/
theorem drawFace_fixed_quad_split {K : Type} [LinearOrderedField K] [FloorRing K]
    (api : CanvasPaths K) (v : Viewer K) (hz : v.useZBuffer = true)
    (hw : v.wireframe = false) (face : Face K) (color : String) :
    (∀ p0 p1 p2 p3 : ProjectedPoint K,
      drawFace api v face [p0, p1, p2, p3] color
        = drawTriangle
            (drawTriangle v p0.x p0.y p0.z p1.x p1.y p1.z p2.x p2.y p2.z color)
            p0.x p0.y p0.z p2.x p2.y p2.z p3.x p3.y p3.z color) ∧
    (∀ p0 p1 p2 : ProjectedPoint K,
      drawFace api v face [p0, p1, p2] color
        = drawTriangle v p0.x p0.y p0.z p1.x p1.y p1.z p2.x p2.y p2.z color) := by
  constructor
  · intro p0 p1 p2 p3
    simp [drawFace, hz, hw]
  · intro p0 p1 p2
    simp [drawFace, hz, hw]

/-! ## Claims on the winding of the built-in models -/

/-- C16: the built-in cube has outward normals.  For each of the 6 faces of
`cubeFaces`, with `v0` its first vertex and `n = cross(v1 - v0, v2 - v0)` from
its first three vertices in `cubeVertices`: `n` is not zero, every cube vertex
`w` has `dot(n, w - v0) ≤ 0`, and `dot(n, faceCentre) > 0`. -/
theorem cube_normals_outward {K : Type} [LinearOrderedField K] :
    ∀ f ∈ cubeFaces, ∃ v0 n : Point3D K, faceFrame cubeVertices f = some (v0, n) ∧
      n ≠ ⟨0, 0, 0⟩ ∧ (∀ w ∈ cubeVertices, n.dot (w.subtract v0) ≤ 0) ∧
      n.dot (faceCentre cubeVertices f) > 0 := by
  intro f hf
  simp only [cubeFaces, List.mem_cons, List.mem_singleton, List.not_mem_nil, or_false] at hf
  rcases hf with rfl | rfl | rfl | rfl | rfl | rfl <;>
    · refine ⟨_, _, rfl, ?_, ?_, ?_⟩
      · intro h
        have h1 := congrArg Point3D.x h
        have h2 := congrArg Point3D.y h
        have h3 := congrArg Point3D.z h
        norm_num [Point3D.cross, Point3D.subtract, cubeVertices] at h1 h2 h3
      · intro w hw
        simp only [cubeVertices, List.mem_cons, List.mem_singleton, List.not_mem_nil,
          or_false] at hw
        rcases hw with rfl | rfl | rfl | rfl | rfl | rfl | rfl | rfl <;>
          norm_num [Point3D.cross, Point3D.subtract, Point3D.dot, cubeVertices]
      · simp only [faceCentre, cubeVertices, List.filterMap_cons, List.filterMap_nil,
          List.getElem?_cons_succ, List.getElem?_cons_zero, meanPoint, List.map_cons,
          List.map_nil, List.sum_cons, List.sum_nil, List.length_cons, List.length_nil,
          List.getElem_cons_succ, List.getElem_cons_zero]
        norm_num [Point3D.cross, Point3D.subtract, Point3D.dot]

/-- C17 fails on the code: for each of the 4 faces of `tetraFaces`, with `v0`
its first vertex and `n = cross(v1 - v0, v2 - v0)` from its three vertices in
`tetraVertices`, the remaining vertex `w` of the tetrahedron has
`dot(n, w - v0) > 0`: every normal points into the solid. -/
theorem tetra_normals_inward {K : Type} [LinearOrderedField K] :
    ∀ f ∈ tetraFaces, ∃ v0 n : Point3D K, faceFrame tetraVertices f = some (v0, n) ∧
      ∀ (i : Nat) (w : Point3D K), i ∉ f → tetraVertices[i]? = some w →
        n.dot (w.subtract v0) > 0 := by
  intro f hf
  simp only [tetraFaces, List.mem_cons, List.mem_singleton, List.not_mem_nil, or_false] at hf
  rcases hf with rfl | rfl | rfl | rfl <;>
    · refine ⟨_, _, rfl, ?_⟩
      intro i w hi hw
      simp only [List.mem_cons, List.mem_singleton, List.not_mem_nil, or_false, not_or] at hi
      rcases i with _ | _ | _ | _ | _ | i
      all_goals first
        | (exfalso; omega)
        | (simp only [tetraVertices, List.getElem?_cons_succ, List.getElem?_cons_zero,
            List.getElem?_nil, Option.some.injEq] at hw
           subst hw
           norm_num [Point3D.cross, Point3D.subtract, Point3D.dot, tetraVertices])
        | (simp [tetraVertices] at hw)

/-- C18 fails on the code: for each of the 5 faces of `pyramidFaces`, with `v0`
its first vertex and `n = cross(v1 - v0, v2 - v0)` from its first three
vertices in `pyramidVertices`, every pyramid vertex `w` has
`dot(n, w - v0) ≥ 0` and some vertex has `dot(n, w - v0) > 0`: every normal
points into the solid. -/
theorem pyramid_normals_inward {K : Type} [LinearOrderedField K] :
    ∀ f ∈ pyramidFaces, ∃ v0 n : Point3D K, faceFrame pyramidVertices f = some (v0, n) ∧
      (∀ w ∈ pyramidVertices, n.dot (w.subtract v0) ≥ 0) ∧
      ∃ w ∈ pyramidVertices, n.dot (w.subtract v0) > 0 := by
  intro f hf
  simp only [pyramidFaces, List.mem_cons, List.mem_singleton, List.not_mem_nil, or_false]
    at hf
  rcases hf with rfl | rfl | rfl | rfl | rfl
  · refine ⟨_, _, rfl, ?_, ⟨1, -1, 1⟩, by simp [pyramidVertices], ?_⟩
    · intro w hw
      simp only [pyramidVertices, List.mem_cons, List.mem_singleton, List.not_mem_nil,
        or_false] at hw
      rcases hw with rfl | rfl | rfl | rfl | rfl <;>
        norm_num [Point3D.cross, Point3D.subtract, Point3D.dot, pyramidVertices]
    · norm_num [Point3D.cross, Point3D.subtract, Point3D.dot, pyramidVertices]
  · refine ⟨_, _, rfl, ?_, ⟨-1, -1, 1⟩, by simp [pyramidVertices], ?_⟩
    · intro w hw
      simp only [pyramidVertices, List.mem_cons, List.mem_singleton, List.not_mem_nil,
        or_false] at hw
      rcases hw with rfl | rfl | rfl | rfl | rfl <;>
        norm_num [Point3D.cross, Point3D.subtract, Point3D.dot, pyramidVertices]
    · norm_num [Point3D.cross, Point3D.subtract, Point3D.dot, pyramidVertices]
  · refine ⟨_, _, rfl, ?_, ⟨-1, -1, -1⟩, by simp [pyramidVertices], ?_⟩
    · intro w hw
      simp only [pyramidVertices, List.mem_cons, List.mem_singleton, List.not_mem_nil,
        or_false] at hw
      rcases hw with rfl | rfl | rfl | rfl | rfl <;>
        norm_num [Point3D.cross, Point3D.subtract, Point3D.dot, pyramidVertices]
    · norm_num [Point3D.cross, Point3D.subtract, Point3D.dot, pyramidVertices]
  · refine ⟨_, _, rfl, ?_, ⟨1, -1, -1⟩, by simp [pyramidVertices], ?_⟩
    · intro w hw
      simp only [pyramidVertices, List.mem_cons, List.mem_singleton, List.not_mem_nil,
        or_false] at hw
      rcases hw with rfl | rfl | rfl | rfl | rfl <;>
        norm_num [Point3D.cross, Point3D.subtract, Point3D.dot, pyramidVertices]
    · norm_num [Point3D.cross, Point3D.subtract, Point3D.dot, pyramidVertices]
  · refine ⟨_, _, rfl, ?_, ⟨0, 1, 0⟩, by simp [pyramidVertices], ?_⟩
    · intro w hw
      simp only [pyramidVertices, List.mem_cons, List.mem_singleton, List.not_mem_nil,
        or_false] at hw
      rcases hw with rfl | rfl | rfl | rfl | rfl <;>
        norm_num [Point3D.cross, Point3D.subtract, Point3D.dot, pyramidVertices]
    · norm_num [Point3D.cross, Point3D.subtract, Point3D.dot, pyramidVertices]

/-! ## Claim on the indices of the depth buffer -/

section IndexClaim

set_option linter.unusedSectionVars false

variable {K : Type} [LinearOrderedField K] [FloorRing K]

/-- Two nested loops are one loop over the pairs they visit. -/
theorem foldl_nested {S : Type} (step : S → Int → Int → S) (xs ys : List Int) (s : S) :
    (ys.flatMap (fun y => xs.map (fun x => (x, y)))).foldl (fun t p => step t p.1 p.2) s
      = ys.foldl (fun t y => xs.foldl (fun u x => step u x y) t) s := by
  induction ys generalizing s with
  | nil => rfl
  | cons y ys ih =>
    rw [List.flatMap_cons, List.foldl_append, List.foldl_cons, List.foldl_map, ih]

/-- The method `drawTriangle` is the loop body run over the visited pixels. -/
theorem drawTriangle_eq_foldl_visited (v : Viewer K) (x1 y1 z1 x2 y2 z2 x3 y3 z3 : K)
    (color : String) :
    drawTriangle v x1 y1 z1 x2 y2 z2 x3 y3 z3 color
      = (visitedPixels v.width v.height x1 y1 x2 y2 x3 y3).foldl
          (fun s p => drawTrianglePixel x1 y1 z1 x2 y2 z2 x3 y3 z3 color s p.1 p.2) v := by
  unfold drawTriangle visitedPixels
  exact (foldl_nested (fun s x y => drawTrianglePixel x1 y1 z1 x2 y2 z2 x3 y3 z3 color s x y)
    _ _ v).symm

/-- The visited pixels lie on the canvas. -/
theorem mem_visitedPixels (W H : Nat) (x1 y1 x2 y2 x3 y3 : K) (p : Int × Int)
    (hp : p ∈ visitedPixels W H x1 y1 x2 y2 x3 y3) :
    0 ≤ p.1 ∧ p.1 ≤ (W : Int) - 1 ∧ 0 ≤ p.2 ∧ p.2 ≤ (H : Int) - 1 := by
  unfold visitedPixels at hp
  rw [List.mem_flatMap] at hp
  obtain ⟨y, hy, hpy⟩ := hp
  rw [List.mem_map] at hpy
  obtain ⟨x, hx, rfl⟩ := hpy
  rw [mem_loopRange] at hx hy
  have a1 := le_trans (le_max_left (0 : Int) ⌊min (min x1 x2) x3⌋) hx.1
  have a2 := le_trans hx.2 (min_le_left ((W : Int) - 1) ⌈max (max x1 x2) x3⌉)
  have a3 := le_trans (le_max_left (0 : Int) ⌊min (min y1 y2) y3⌋) hy.1
  have a4 := le_trans hy.2 (min_le_left ((H : Int) - 1) ⌈max (max y1 y2) y3⌉)
  exact ⟨a1, a2, a3, a4⟩

/-- C20: `drawTriangle` never indexes outside the depth buffer.  For a depth
buffer of `width * height` entries and any vertex coordinates, the method is
its loop body run over the visited pixels; every visited pixel `(x, y)` has
`0 ≤ x ≤ width - 1` and `0 ≤ y ≤ height - 1`, so its buffer index
`y * width + x` satisfies `0 ≤ index < width * height`; the read of the depth
buffer made at each visit finds an entry; and distinct visited pixels have
distinct indices. -/
theorem drawTriangle_indices_in_bounds (v : Viewer K)
    (hlen : v.zBuffer.length = v.width * v.height)
    (x1 y1 z1 x2 y2 z2 x3 y3 z3 : K) (color : String) :
    drawTriangle v x1 y1 z1 x2 y2 z2 x3 y3 z3 color
      = (visitedPixels v.width v.height x1 y1 x2 y2 x3 y3).foldl
          (fun s p => drawTrianglePixel x1 y1 z1 x2 y2 z2 x3 y3 z3 color s p.1 p.2) v ∧
    (∀ p ∈ visitedPixels v.width v.height x1 y1 x2 y2 x3 y3,
      0 ≤ p.1 ∧ p.1 ≤ (v.width : Int) - 1 ∧ 0 ≤ p.2 ∧ p.2 ≤ (v.height : Int) - 1 ∧
      0 ≤ p.2 * (v.width : Int) + p.1 ∧
      p.2 * (v.width : Int) + p.1 < (v.width : Int) * (v.height : Int)) ∧
    (∀ (before after : List (Int × Int)) (p : Int × Int),
      visitedPixels v.width v.height x1 y1 x2 y2 x3 y3 = before ++ p :: after →
      ∃ stored,
        (before.foldl
          (fun s q => drawTrianglePixel x1 y1 z1 x2 y2 z2 x3 y3 z3 color s q.1 q.2)
          v).zBuffer[(p.2 *
            ((before.foldl
              (fun s q => drawTrianglePixel x1 y1 z1 x2 y2 z2 x3 y3 z3 color s q.1 q.2)
              v).width : Int) + p.1).toNat]? = some stored) ∧
    (∀ p ∈ visitedPixels v.width v.height x1 y1 x2 y2 x3 y3,
      ∀ q ∈ visitedPixels v.width v.height x1 y1 x2 y2 x3 y3,
        p.2 * (v.width : Int) + p.1 = q.2 * (v.width : Int) + q.1 → p = q) := by
  refine ⟨drawTriangle_eq_foldl_visited v x1 y1 z1 x2 y2 z2 x3 y3 z3 color, ?_, ?_, ?_⟩
  · intro p hp
    obtain ⟨a1, a2, a3, a4⟩ := mem_visitedPixels v.width v.height x1 y1 x2 y2 x3 y3 p hp
    have hlt := bufferIndex_lt v.width v.height p.1 p.2 a1 (by omega) a3 (by omega)
    have hnn : 0 ≤ p.2 * (v.width : Int) + p.1 :=
      add_nonneg (mul_nonneg a3 (Int.ofNat_nonneg _)) a1
    refine ⟨a1, a2, a3, a4, hnn, ?_⟩
    have h1 : ((p.2 * (v.width : Int) + p.1).toNat : Int) < ((v.width * v.height : Nat) : Int) := by
      exact_mod_cast hlt
    rw [Int.toNat_of_nonneg hnn] at h1
    push_cast at h1
    exact h1
  · intro before after p hsplit
    have hp : p ∈ visitedPixels v.width v.height x1 y1 x2 y2 x3 y3 := by
      rw [hsplit]
      simp
    obtain ⟨a1, a2, a3, a4⟩ := mem_visitedPixels v.width v.height x1 y1 x2 y2 x3 y3 p hp
    have hlt := bufferIndex_lt v.width v.height p.1 p.2 a1 (by omega) a3 (by omega)
    have hkeep := foldl_keeps
      (fun s (q : Int × Int) =>
        drawTrianglePixel x1 y1 z1 x2 y2 z2 x3 y3 z3 color s q.1 q.2)
      (fun s => s.width = v.width ∧ s.zBuffer.length = v.zBuffer.length) before
      (by
        intro s q _ hs
        exact ⟨(drawTrianglePixel_width x1 y1 z1 x2 y2 z2 x3 y3 z3 color s q.1 q.2).1.trans
            hs.1,
          (drawTrianglePixel_depthLE x1 y1 z1 x2 y2 z2 x3 y3 z3 color s q.1 q.2).1.trans
            hs.2⟩)
      v ⟨rfl, rfl⟩
    simp only [] at hkeep
    rw [hkeep.1]
    have hin : (p.2 * (v.width : Int) + p.1).toNat
        < (before.foldl
            (fun s q => drawTrianglePixel x1 y1 z1 x2 y2 z2 x3 y3 z3 color s q.1 q.2)
            v).zBuffer.length := by
      rw [hkeep.2, hlen]
      exact hlt
    exact ⟨_, List.getElem?_eq_getElem hin⟩
  · intro p hp q hq heq
    obtain ⟨a1, a2, a3, a4⟩ := mem_visitedPixels v.width v.height x1 y1 x2 y2 x3 y3 p hp
    obtain ⟨b1, b2, b3, b4⟩ := mem_visitedPixels v.width v.height x1 y1 x2 y2 x3 y3 q hq
    have := bufferIndex_inj v.width p.1 p.2 q.1 q.2 a1 (by omega) b1 (by omega) a3 b3
      (by rw [heq])
    exact Prod.ext this.1 this.2

end IndexClaim

/-! ## Instances of the later claims on concrete inputs -/

/-- The rule of `calculateNormal` on the front face of the cube, whose first
three vertices are not collinear. -/
theorem calculateNormal_returns_rule_witness :
    ((Face.new [4, 5, 6, 7] "front" : Face ℝ).calculateNormal Real.sqrt cubeVertices).map
        Prod.fst
      = some (((Point3D.mk (1 : ℝ) (-1) 1).subtract ⟨-1, -1, 1⟩).cross
          ((Point3D.mk (1 : ℝ) 1 1).subtract ⟨-1, -1, 1⟩) |>.normalize Real.sqrt) :=
  ((calculateNormal_returns_rule (Face.new [4, 5, 6, 7] "front") cubeVertices).2
    4 5 6 [7] ⟨-1, -1, 1⟩ ⟨1, -1, 1⟩ ⟨1, 1, 1⟩ rfl
    (by
      intro idx hidx
      simp only [Face.new, List.mem_cons, List.mem_singleton, List.not_mem_nil,
        or_false] at hidx
      rcases hidx with rfl | rfl | rfl | rfl <;> simp [cubeVertices])
    rfl rfl rfl).1

/-- The cached fields of the front face of the cube after `calculateNormal`. -/
theorem calculateNormal_caches_fields_witness :
    ∃ n f1, (Face.new [4, 5, 6, 7] "front" : Face ℝ).calculateNormal Real.sqrt cubeVertices
        = some (n, f1) ∧
      f1.center = faceCentre cubeVertices [4, 5, 6, 7] ∧ f1.normal = n :=
  (calculateNormal_caches_fields Real.sqrt (Face.new [4, 5, 6, 7] "front")
    cubeVertices).1 (by simp [Face.new])
    (by
      intro idx hidx
      simp only [Face.new, List.mem_cons, List.mem_singleton, List.not_mem_nil,
        or_false] at hidx
      rcases hidx with rfl | rfl | rfl | rfl <;> simp [cubeVertices])

/-- The camera of the constructor on the 4 by 3 canvas. -/
theorem default_camera_projects_origin_to_centre_witness :
    getCameraPosition Real.sin Real.cos (sampleViewer : Viewer ℝ) = ⟨0, 0, 5⟩ ∧
    (projectPoint Real.sin Real.cos (sampleViewer : Viewer ℝ) ⟨0, 0, 0⟩).x
      = (((sampleViewer : Viewer ℝ).width : Nat) : ℝ) / 2 ∧
    (projectPoint Real.sin Real.cos (sampleViewer : Viewer ℝ) ⟨0, 0, 0⟩).y
      = (((sampleViewer : Viewer ℝ).height : Nat) : ℝ) / 2 :=
  default_camera_projects_origin_to_centre sampleViewer rfl rfl

/-- The perspective projection of the point `(1, 2, 3)`, which is behind the
camera of the constructor (`d.z = -2`): the depth floor applies, the screen
offset in `x` has the sign of `d.x` and the returned depth is `d.z`. -/
theorem perspective_depth_floor_witness :
    SignType.sign
        ((projectPoint Real.sin Real.cos
          ({ (sampleViewer : Viewer ℝ) with isPerspective := true }) ⟨1, 2, 3⟩).x
          - ((4 : Nat) : ℝ) / 2)
      = SignType.sign ((Point3D.mk (1 : ℝ) 2 3).subtract
          (getCameraPosition Real.sin Real.cos
            ({ (sampleViewer : Viewer ℝ) with isPerspective := true }))).x ∧
    (projectPoint Real.sin Real.cos
        ({ (sampleViewer : Viewer ℝ) with isPerspective := true }) ⟨1, 2, 3⟩).z
      = ((Point3D.mk (1 : ℝ) 2 3).subtract
          (getCameraPosition Real.sin Real.cos
            ({ (sampleViewer : Viewer ℝ) with isPerspective := true }))).z :=
  ⟨(perspective_depth_floor Real.sin Real.cos
      ({ (sampleViewer : Viewer ℝ) with isPerspective := true }) rfl ⟨1, 2, 3⟩).2.2.2.2.2.2.1,
   (perspective_depth_floor Real.sin Real.cos
      ({ (sampleViewer : Viewer ℝ) with isPerspective := true }) rfl ⟨1, 2, 3⟩).2.2.2.2.2.1⟩

/-- The front face of the cube has an outward normal. -/
theorem cube_normals_outward_witness :
    ∃ v0 n : Point3D ℚ, faceFrame cubeVertices [4, 5, 6, 7] = some (v0, n) ∧
      n ≠ ⟨0, 0, 0⟩ ∧ (∀ w ∈ cubeVertices, n.dot (w.subtract v0) ≤ 0) ∧
      n.dot (faceCentre cubeVertices [4, 5, 6, 7]) > 0 :=
  cube_normals_outward [4, 5, 6, 7] (by simp [cubeFaces])

/-- The base of the tetrahedron has a normal that points to the fourth vertex. -/
theorem tetra_normals_inward_witness :
    ∃ v0 n : Point3D ℚ, faceFrame tetraVertices [0, 2, 1] = some (v0, n) ∧
      ∀ (i : Nat) (w : Point3D ℚ), i ∉ [0, 2, 1] → tetraVertices[i]? = some w →
        n.dot (w.subtract v0) > 0 :=
  tetra_normals_inward [0, 2, 1] (by simp [tetraFaces])

/-- The base of the pyramid has a normal that points to the apex. -/
theorem pyramid_normals_inward_witness :
    ∃ v0 n : Point3D ℚ, faceFrame pyramidVertices [1, 4, 3, 2] = some (v0, n) ∧
      (∀ w ∈ pyramidVertices, n.dot (w.subtract v0) ≥ 0) ∧
      ∃ w ∈ pyramidVertices, n.dot (w.subtract v0) > 0 :=
  pyramid_normals_inward [1, 4, 3, 2] (by simp [pyramidFaces])

/-- A triangle and a quad drawn on the 4 by 3 canvas with the depth buffer on. -/
theorem drawFace_fixed_quad_split_witness :
    drawFace samplePaths (sampleViewer : Viewer ℚ) (Face.new [0, 1, 2, 3] "red")
        [⟨0, 0, 1⟩, ⟨3, 0, 2⟩, ⟨3, 2, 3⟩, ⟨0, 2, 4⟩] "red"
      = drawTriangle (drawTriangle (sampleViewer : Viewer ℚ) 0 0 1 3 0 2 3 2 3 "red")
          0 0 1 3 2 3 0 2 4 "red" ∧
    drawFace samplePaths (sampleViewer : Viewer ℚ) (Face.new [0, 1, 2] "red")
        [⟨0, 0, 1⟩, ⟨3, 0, 2⟩, ⟨0, 2, 3⟩] "red"
      = drawTriangle (sampleViewer : Viewer ℚ) 0 0 1 3 0 2 0 2 3 "red" :=
  ⟨(drawFace_fixed_quad_split samplePaths (sampleViewer : Viewer ℚ) rfl rfl
      (Face.new [0, 1, 2, 3] "red") "red").1 ⟨0, 0, 1⟩ ⟨3, 0, 2⟩ ⟨3, 2, 3⟩ ⟨0, 2, 4⟩,
   (drawFace_fixed_quad_split samplePaths (sampleViewer : Viewer ℚ) rfl rfl
      (Face.new [0, 1, 2] "red") "red").2 ⟨0, 0, 1⟩ ⟨3, 0, 2⟩ ⟨0, 2, 3⟩⟩

/-- On the 4 by 3 canvas with its 12 depth entries, every pixel that the
triangle `(0,0) (3,0) (0,2)` visits has a buffer index below 12. -/
theorem drawTriangle_indices_in_bounds_witness :
    (sampleViewer : Viewer ℚ).zBuffer.length = 4 * 3 ∧
    ∀ p ∈ visitedPixels 4 3 (0 : ℚ) 0 3 0 0 2,
      0 ≤ p.2 * ((4 : Nat) : Int) + p.1 ∧
      p.2 * ((4 : Nat) : Int) + p.1 < ((4 : Nat) : Int) * ((3 : Nat) : Int) :=
  ⟨by decide, fun p hp =>
    ((drawTriangle_indices_in_bounds (sampleViewer : Viewer ℚ) (by decide)
      0 0 1 3 0 2 0 2 3 "red").2.1 p hp).2.2.2.2⟩

/-! ## Claim on the culling decision and the normalisations -/

theorem Point3D.dot_comm {K : Type} [LinearOrderedField K] (a b : Point3D K) :
    a.dot b = b.dot a := by
  simp only [Point3D.dot]
  ring

/-- The sign test with a normalised normal is the sign test with the vector
itself. -/
theorem Point3D.normalize_dot_pos_iff (n w : Point3D ℝ) :
    (n.normalize Real.sqrt).dot w > 0 ↔ n.dot w > 0 := by
  rw [Point3D.dot_comm, Point3D.dot_comm n w]
  exact Point3D.dot_normalize_pos_iff w n

/-- C21: the culling decision does not depend on the two normalisations.
With culling enabled, for a face with at least 3 vertex indices, all valid in
the transformed vertex list, and any camera, `isFaceVisible` returns, and it
returns `true` exactly when `dot(cross(v1 - v0, v2 - v0), cam - center) > 0`,
where `v0, v1, v2` are the first three vertices of the face, `cam` is the camera
position and `center` is the mean of the vertices of the face.  So it returns
`false` when the first three vertices are collinear and when the camera is at
the face centre. -/
theorem isFaceVisible_iff_raw_dot_pos (v : Viewer ℝ) (hcull : v.backfaceCulling = true)
    (face : Face ℝ) (tv : List (Point3D ℝ)) (i0 i1 i2 : Nat) (rest : List Nat)
    (hidx : face.vertexIndices = i0 :: i1 :: i2 :: rest)
    (hvalid : ∀ idx ∈ face.vertexIndices, idx < tv.length) (v0 v1 v2 : Point3D ℝ)
    (h0 : tv[i0]? = some v0) (h1 : tv[i1]? = some v1) (h2 : tv[i2]? = some v2) :
    ((isFaceVisible Real.sqrt Real.sin Real.cos v face tv).map Prod.fst
      = some (decide (((v1.subtract v0).cross (v2.subtract v0)).dot
          ((getCameraPosition Real.sin Real.cos v).subtract
            (faceCentre tv face.vertexIndices)) > 0))) ∧
    ((isFaceVisible Real.sqrt Real.sin Real.cos v face tv).map Prod.fst = some true ↔
      ((v1.subtract v0).cross (v2.subtract v0)).dot
        ((getCameraPosition Real.sin Real.cos v).subtract
          (faceCentre tv face.vertexIndices)) > 0) ∧
    (Collinear3D v0 v1 v2 →
      (isFaceVisible Real.sqrt Real.sin Real.cos v face tv).map Prod.fst = some false) ∧
    (getCameraPosition Real.sin Real.cos v = faceCentre tv face.vertexIndices →
      (isFaceVisible Real.sqrt Real.sin Real.cos v face tv).map Prod.fst = some false) := by
  obtain ⟨pts, hpts⟩ := exists_referenced tv face.vertexIndices hvalid
  have hc := Face.calculateNormal_of_valid Real.sqrt face tv i0 i1 i2 rest hidx
    v0 v1 v2 h0 h1 h2 pts hpts
  have hcentre : faceCentre tv face.vertexIndices = meanPoint pts := by
    simp only [faceCentre, filterMap_of_referenced tv face.vertexIndices pts hpts]
  have hvis := isFaceVisible_of_calculateNormal v hcull face tv _ _ hc
  have hmain : (isFaceVisible Real.sqrt Real.sin Real.cos v face tv).map Prod.fst
      = some (decide (((v1.subtract v0).cross (v2.subtract v0)).dot
          ((getCameraPosition Real.sin Real.cos v).subtract
            (faceCentre tv face.vertexIndices)) > 0)) := by
    rw [hvis, hcentre]
    simp only [Option.map_some', Option.some.injEq]
    apply decide_eq_decide.mpr
    exact Point3D.normalize_dot_pos_iff _ _
  refine ⟨hmain, ?_, ?_, ?_⟩
  · rw [hmain]
    simp only [Option.some.injEq, decide_eq_true_eq]
  · intro hcol
    rw [hmain, cross_eq_zero_of_collinear v0 v1 v2 hcol]
    simp [Point3D.dot]
  · intro hcam
    rw [hmain, hcam]
    simp [Point3D.dot, Point3D.subtract]

/-- The front face of the cube under the camera of the constructor: the answer
of `isFaceVisible` is the sign test on the unnormalised cross product, and it
is `true`. -/
theorem isFaceVisible_iff_raw_dot_pos_witness :
    (isFaceVisible Real.sqrt Real.sin Real.cos (sampleViewer : Viewer ℝ)
        (Face.new [4, 5, 6, 7] "front") cubeVertices).map Prod.fst
      = some (decide ((((Point3D.mk (1 : ℝ) (-1) 1).subtract ⟨-1, -1, 1⟩).cross
          ((Point3D.mk (1 : ℝ) 1 1).subtract ⟨-1, -1, 1⟩)).dot
          ((getCameraPosition Real.sin Real.cos (sampleViewer : Viewer ℝ)).subtract
            (faceCentre cubeVertices [4, 5, 6, 7])) > 0)) :=
  (isFaceVisible_iff_raw_dot_pos (sampleViewer : Viewer ℝ) rfl
    (Face.new [4, 5, 6, 7] "front") cubeVertices 4 5 6 [7] rfl
    (by
      intro idx hidx
      simp only [Face.new, List.mem_cons, List.mem_singleton, List.not_mem_nil,
        or_false] at hidx
      rcases hidx with rfl | rfl | rfl | rfl <;> simp [cubeVertices])
    ⟨-1, -1, 1⟩ ⟨1, -1, 1⟩ ⟨1, 1, 1⟩ rfl rfl rfl).1
